import Mathlib

/-!
# Verification of the aiocache decorator layer

Shallow embedding of `aiocache/decorators.py`: the single-value cache
decorator (`cached`), the stampede-guarded decorator (`cached_stampede`),
and the multi-key decorator (`multi_cached`), together with the key
derivation helpers (`get_cache_key`, `_key_from_args`, `_get_args_dict`,
`get_cache_keys`).

Python values are modelled by the inductive `PyVal`; the Python value
`None` is the constructor `PyVal.none`.  Python dicts are modelled as
association lists with Python's insertion-order/overwrite semantics
(`dictSet`, `dictUpdate`).  The storage backend is an explicit parameter
(a `Backend` record whose operations may fail), matching the spec's view
of backends as external collaborators; the in-memory backend `memBackend`
and the always-failing backend `failBackend` instantiate it.  Awaited
calls are modelled by explicit state passing, and each backend call or
wrapped-function invocation is recorded as an `Event` so that call counts
("the wrapped function is invoked exactly once", "`multi_get` is never
called") are provable.
-/

/-- A Python value, as far as the decorator layer inspects one:
`None`, booleans, integers, strings and lists. -/
inductive PyVal where
  | none : PyVal
  | bool : Bool → PyVal
  | int : Int → PyVal
  | str : String → PyVal
  | list : List PyVal → PyVal

mutual
/-- Boolean equality on `PyVal` (Python `==` restricted to same-type
comparisons, which is all the decorator layer performs). -/
def PyVal.beq : PyVal → PyVal → Bool
  | .none, .none => true
  | .bool a, .bool b => a == b
  | .int a, .int b => a == b
  | .str a, .str b => a == b
  | .list as, .list bs => PyVal.beqList as bs
  | _, _ => false

/-- Elementwise `PyVal.beq` on lists. -/
def PyVal.beqList : List PyVal → List PyVal → Bool
  | [], [] => true
  | a :: as, b :: bs => PyVal.beq a b && PyVal.beqList as bs
  | _, _ => false
end

mutual
theorem PyVal.beq_iff : ∀ a b : PyVal, (PyVal.beq a b = true) ↔ a = b
  | .none, .none => by simp [PyVal.beq]
  | .none, .bool _ | .none, .int _ | .none, .str _ | .none, .list _
  | .bool _, .none | .bool _, .int _ | .bool _, .str _ | .bool _, .list _
  | .int _, .none | .int _, .bool _ | .int _, .str _ | .int _, .list _
  | .str _, .none | .str _, .bool _ | .str _, .int _ | .str _, .list _
  | .list _, .none | .list _, .bool _ | .list _, .int _ | .list _, .str _ =>
      by simp [PyVal.beq]
  | .bool a, .bool b => by simp [PyVal.beq]
  | .int a, .int b => by simp [PyVal.beq]
  | .str a, .str b => by simp [PyVal.beq]
  | .list as, .list bs => by
      simp only [PyVal.beq, PyVal.beqList_iff as bs, PyVal.list.injEq]

theorem PyVal.beqList_iff : ∀ as bs : List PyVal,
    (PyVal.beqList as bs = true) ↔ as = bs
  | [], [] => by simp [PyVal.beqList]
  | [], _ :: _ => by simp [PyVal.beqList]
  | _ :: _, [] => by simp [PyVal.beqList]
  | a :: as, b :: bs => by
      simp only [PyVal.beqList, Bool.and_eq_true, PyVal.beq_iff a b,
        PyVal.beqList_iff as bs, List.cons.injEq]
end

instance : DecidableEq PyVal := fun a b => decidable_of_iff _ (PyVal.beq_iff a b)

/-- Python truthiness for the values the decorators test with `if x:`. -/
def pyTruthy : PyVal → Bool
  | .none => false
  | .bool b => b
  | .int n => n != 0
  | .str s => s != ""
  | .list xs => !xs.isEmpty

mutual
/-- Python `repr` of a value (as produced inside `str()` of a tuple or
list).  Strings are rendered with single quotes; escaping of quotes
inside strings is not modelled (no claim depends on it). -/
def reprPy : PyVal → String
  | .none => "None"
  | .bool b => if b then "True" else "False"
  | .int n => toString n
  | .str s => "'" ++ s ++ "'"
  | .list xs => "[" ++ String.intercalate ", " (reprPyList xs) ++ "]"

/-- `repr` of each element of a list. -/
def reprPyList : List PyVal → List String
  | [] => []
  | x :: xs => reprPy x :: reprPyList xs
end

/-- Python `str` of a tuple whose elements have already been rendered:
`()`, `(x,)` (singleton tuples carry a trailing comma), `(x, y, ...)`. -/
def strTuple : List String → String
  | [] => "()"
  | [x] => "(" ++ x ++ ",)"
  | xs => "(" ++ String.intercalate ", " xs ++ ")"

/-- Python `str` of a list whose elements have already been rendered. -/
def strList (xs : List String) : String :=
  "[" ++ String.intercalate ", " xs ++ "]"

/-- Python dict assignment `d[k] = v`: overwrite in place if the key is
present, else append (insertion order).  Keys are `String` for keyword
dicts and `PyVal` for cache-result dicts. -/
def dictSet {κ : Type} [DecidableEq κ] (d : List (κ × PyVal)) (k : κ)
    (v : PyVal) : List (κ × PyVal) :=
  if d.any (fun p => p.1 = k) then
    d.map (fun p => if p.1 = k then (k, v) else p)
  else d ++ [(k, v)]

/-- Python `d1.update(d2)` / `{**d1, **d2}`: entries of `d2` override or
extend `d1`, processed in `d2`'s order. -/
def dictUpdate {κ : Type} [DecidableEq κ] (d₁ d₂ : List (κ × PyVal)) :
    List (κ × PyVal) :=
  d₂.foldl (fun acc p => dictSet acc p.1 p.2) d₁

/-- Python `d.get(k)` / `d[k]` lookup on the association-list model. -/
def dictLookup {κ : Type} [DecidableEq κ] (d : List (κ × PyVal)) (k : κ) :
    Option PyVal :=
  (d.find? (fun p => p.1 = k)).map Prod.snd

/-- The static function metadata the key builder reads:
`__module__` (with `or ''` already applied), `__name__`, the positional
parameter names `__code__.co_varnames[:co_argcount]`, and the declared
parameter defaults from `inspect.signature`. -/
structure FuncMeta where
  module : String
  name : String
  argNames : List String
  defaults : List (String × PyVal)

/-- `_get_args_dict(func, args, kwargs)`:
`{**defaults, **dict(zip(args_names, args)), **kwargs}`. -/
def getArgsDict (meta : FuncMeta) (args : List PyVal)
    (kwargs : List (String × PyVal)) : List (String × PyVal) :=
  dictUpdate (dictUpdate meta.defaults (meta.argNames.zip args)) kwargs

/-- Configuration of the `cached` (and `cached_stampede`) decorator that
key derivation and the read/write path consult.  `key` keeps Python's
semantics of `if self.key:` (truthiness), `key_from_attr` is `None` or a
parameter name, `ttl` is `None` or a number of seconds. -/
structure CachedConfig where
  ttl : Option Int := Option.none
  key : PyVal := .none
  keyFromAttr : Option String := Option.none
  noself : Bool := false

/-- Ordering used by `sorted(kwargs.items())`: Python compares the
`(name, value)` tuples, but dict keys are unique, so the comparison
never reaches the values; sorting by name (stably) is equivalent. -/
def kwLe (p q : String × PyVal) : Prop := p.1 ≤ q.1

instance : DecidableRel kwLe := fun p q => inferInstanceAs (Decidable (p.1 ≤ q.1))

/-- `sorted(kwargs.items())` under the unique-keys invariant of dicts. -/
def sortedKwargs (kwargs : List (String × PyVal)) : List (String × PyVal) :=
  kwargs.insertionSort kwLe

/-- `cached._key_from_args(func, args, kwargs)`:
`(func.__module__ or '') + func.__name__ + str(args[1:] if noself else args)
 + str(ordered_kwargs)`. -/
def keyFromArgs (cfg : CachedConfig) (meta : FuncMeta) (args : List PyVal)
    (kwargs : List (String × PyVal)) : String :=
  meta.module ++ meta.name
    ++ strTuple ((if cfg.noself then args.drop 1 else args).map reprPy)
    ++ strList ((sortedKwargs kwargs).map
        (fun p => strTuple [reprPy (.str p.1), reprPy p.2]))

/-- `cached.get_cache_key(f, args, kwargs)`: an explicit (truthy) key
wins; else `args_dict.get(key_from_attr, self._key_from_args(...))` —
note the fallback to the derived key when the attribute is absent
(`dict.get` with a default never raises). -/
def getCacheKey (cfg : CachedConfig) (meta : FuncMeta) (args : List PyVal)
    (kwargs : List (String × PyVal)) : PyVal :=
  if pyTruthy cfg.key then cfg.key
  else
    let argsDict := getArgsDict meta args kwargs
    match cfg.keyFromAttr with
    | Option.some attr =>
        match dictLookup argsDict attr with
        | Option.some v => v
        | Option.none => .str (keyFromArgs cfg meta args kwargs)
    | Option.none => .str (keyFromArgs cfg meta args kwargs)

/-- The key→value contents of a backend.  Absence of an entry is what the
backends' `get` reports as `None`: `lookupStore` returns `PyVal.none`
for an absent key, so a stored `None` and a missing key are observably
identical to the decorator layer. -/
abbrev Store := List (PyVal × PyVal)

/-- Backend `get`: the stored value, or `None` when the key is absent. -/
def lookupStore (st : Store) (k : PyVal) : PyVal :=
  (dictLookup st k).getD PyVal.none

/-- Backend `set`: upsert one entry. -/
def storeSet (st : Store) (k v : PyVal) : Store :=
  dictSet st k v

/-- One observable action of a decorated call: backend calls, the
invocation of the wrapped function (with the arguments it receives), and
lock acquire/release.  Call-count claims are stated over these. -/
inductive Event where
  | get : PyVal → Event
  | set : PyVal → PyVal → Event
  | multiGet : List PyVal → Event
  | multiSet : List (PyVal × PyVal) → Event
  | invoke : List PyVal → List (String × PyVal) → Event
  | acquire : PyVal → Event
  | release : PyVal → Event
deriving DecidableEq

/-- Is this event an invocation of the wrapped function? -/
def Event.isInvoke : Event → Bool
  | .invoke _ _ => true
  | _ => false

/-- Is this event a backend batch read? -/
def Event.isMultiGet : Event → Bool
  | .multiGet _ => true
  | _ => false

/-- Is this event a backend single-key write? -/
def Event.isSet : Event → Bool
  | .set _ _ => true
  | _ => false

/-- Is this event a backend batch write? -/
def Event.isMultiSet : Event → Bool
  | .multiSet _ => true
  | _ => false

/-- A storage backend, the external collaborator of the decorator layer
(spec §6).  Every operation may fail; the decorators must contain such
failures.  `get` returns `PyVal.none` for an absent key; `multiGet`
returns a list aligned with the requested keys, `PyVal.none` at absent
positions.  The `ttl` arguments are forwarded as the code does; the
backends modelled here keep no clock, so they ignore them. -/
structure Backend where
  get : PyVal → Store → Except String PyVal
  set : PyVal → PyVal → Option Int → Store → Except String Store
  multiGet : List PyVal → Store → Except String (List PyVal)
  multiSet : List (PyVal × PyVal) → Int → Store → Except String Store

/-- The in-memory backend: never fails, reads and writes `Store`. -/
def memBackend : Backend where
  get k st := .ok (lookupStore st k)
  set k v _ st := .ok (storeSet st k v)
  multiGet ks st := .ok (ks.map (lookupStore st))
  multiSet ps _ st := .ok (dictUpdate st ps)

/-- A backend whose every operation raises, for the error-containment
claims. -/
def failBackend : Backend where
  get _ _ := .error "backend error"
  set _ _ _ _ := .error "backend error"
  multiGet _ _ := .error "backend error"
  multiSet _ _ _ := .error "backend error"

/-- `cached.get_from_cache(key)`: a raised backend error is caught and
logged, and the method falls through returning Python `None` — a read
failure is a miss.  (The hit branch also schedules a fire-and-forget
`cache.close()`; that touches only the external client and is not
modelled.) -/
def getFromCache (B : Backend) (key : PyVal) (st : Store) :
    PyVal × List Event :=
  match B.get key st with
  | .ok v => (v, [.get key])
  | .error _ => (.none, [.get key])

/-- `cached.set_in_cache(key, value)`: `conn.set(key, value, ttl=self.ttl)`
with any raised error caught and logged (the store is then unchanged). -/
def setInCache (B : Backend) (cfg : CachedConfig) (key v : PyVal)
    (st : Store) : Store × List Event :=
  match B.set key v cfg.ttl st with
  | .ok st' => (st', [.set key v])
  | .error _ => (st, [.set key v])

/-- `cached.decorator(f, *args, **kwargs)`: derive the key, read through
the scoped connection (`value is not None` is the hit test), on miss
invoke `f` — whose failure propagates — then write back (write failures
swallowed) and return the computed result. -/
def cachedDecorator (B : Backend) (cfg : CachedConfig) (meta : FuncMeta)
    (fImpl : List PyVal → List (String × PyVal) → Except String PyVal)
    (args : List PyVal) (kwargs : List (String × PyVal)) (st : Store) :
    Except String PyVal × Store × List Event :=
  let key := getCacheKey cfg meta args kwargs
  let r1 := getFromCache B key st
  if r1.1 ≠ PyVal.none then (.ok r1.1, st, r1.2)
  else
    match fImpl args kwargs with
    | .error e => (.error e, st, r1.2 ++ [.invoke args kwargs])
    | .ok result =>
        let r2 := setInCache B cfg key result st
        (.ok result, r2.1, r1.2 ++ [.invoke args kwargs] ++ r2.2)

/-- Configuration of `cached_stampede`: the `cached` configuration plus
the lock lease in seconds. -/
structure StampedeConfig extends CachedConfig where
  lease : Int := 2

/-- `cached_stampede.decorator(f, *args, **kwargs)` for one caller:
initial lookup, then `async with self.conn._redlock(key, self.lease)`
around the double-checked lookup, computation and write; the lock is
released on every exit path, and a failure of `f` propagates.

The `_redlock` acquire/release themselves live in `aiocache/base.py`,
which is not part of the sources here.  Modelled from the spec: acquire
is a blocking insert-if-absent retry loop that, for the single caller
modelled by this sequential function, succeeds at once; release deletes
the lock record (spec §4.5).  Both are recorded as events.  (The
N-caller interleaved protocol is modelled separately below.) -/
def stampedeDecorator (B : Backend) (cfg : StampedeConfig) (meta : FuncMeta)
    (fImpl : List PyVal → List (String × PyVal) → Except String PyVal)
    (args : List PyVal) (kwargs : List (String × PyVal)) (st : Store) :
    Except String PyVal × Store × List Event :=
  let key := getCacheKey cfg.toCachedConfig meta args kwargs
  let r1 := getFromCache B key st
  if r1.1 ≠ PyVal.none then (.ok r1.1, st, r1.2)
  else
    let r2 := getFromCache B key st
    if r2.1 ≠ PyVal.none then
      (.ok r2.1, st, r1.2 ++ [.acquire key] ++ r2.2 ++ [.release key])
    else
      match fImpl args kwargs with
      | .error e =>
          (.error e, st,
            r1.2 ++ [.acquire key] ++ r2.2 ++ [.invoke args kwargs]
              ++ [.release key])
      | .ok result =>
          let r3 := setInCache B cfg.toCachedConfig key result st
          (.ok result, r3.1,
            r1.2 ++ [.acquire key] ++ r2.2 ++ [.invoke args kwargs]
              ++ r3.2 ++ [.release key])

/-- Configuration of `multi_cached`.  `keyBuilder` models `_key_builder`,
which is `key_builder or (lambda x, args_dict: x)`. -/
structure MultiConfig where
  keysFromAttr : String
  keyBuilder : PyVal → List (String × PyVal) → PyVal := fun k _ => k
  ttl : Int := 0

/-- `multi_cached.get_cache_keys(f, args, kwargs)`:
`args_dict[self.keys_from_attr]` — a missing attribute raises `KeyError`
(unlike `cached.get_cache_key`), iterating a non-list raises — then each
raw key is transformed by `_key_builder(key, args_dict)`. -/
def getCacheKeys (cfg : MultiConfig) (meta : FuncMeta) (args : List PyVal)
    (kwargs : List (String × PyVal)) : Except String (List PyVal) :=
  let argsDict := getArgsDict meta args kwargs
  match dictLookup argsDict cfg.keysFromAttr with
  | Option.none => .error "KeyError"
  | Option.some (.list ks) =>
      .ok (ks.map (fun k => cfg.keyBuilder k argsDict))
  | Option.some _ => .error "TypeError"

/-- `multi_cached.get_from_cache(*keys)`: an empty key tuple returns `[]`
without touching the backend; a raised backend error degrades to
`[None] * len(keys)`. -/
def multiGetFromCache (B : Backend) (keys : List PyVal) (st : Store) :
    List PyVal × List Event :=
  if keys.isEmpty then ([], [])
  else
    match B.multiGet keys st with
    | .ok vs => (vs, [.multiGet keys])
    | .error _ => (List.replicate keys.length PyVal.none, [.multiGet keys])

/-- `multi_cached.set_in_cache(result)`:
`multi_set([(k, v) for k, v in result.items()], ttl=self.ttl)`, raised
errors caught and logged. -/
def multiSetInCache (B : Backend) (cfg : MultiConfig)
    (result : List (PyVal × PyVal)) (st : Store) : Store × List Event :=
  match B.multiSet result cfg.ttl st with
  | .ok st' => (st', [.multiSet result])
  | .error _ => (st, [.multiSet result])

/-- The partition loop of `multi_cached.decorator`: walk `zip(keys,
values)` accumulating `missing_keys` (append) and the hit dict
(`partial[key] = value`). -/
def partitionHits (pairs : List (PyVal × PyVal)) :
    List PyVal × List (PyVal × PyVal) :=
  pairs.foldl
    (fun acc p =>
      if p.2 = PyVal.none then (acc.1 ++ [p.1], acc.2)
      else (acc.1, dictSet acc.2 p.1 p.2))
    ([], [])

/-- `multi_cached.decorator(f, *args, **kwargs)`: derive the (possibly
transformed) keys, batch-read, partition into hits and missing,
overwrite the keys attribute in `kwargs` with the missing keys, return
the hits alone when the read was non-empty with no `None`; otherwise
invoke `f`, merge `result.update(partial)`, batch-write the **merged**
dict and return it.  A `f` failure propagates. -/
def multiDecorator (B : Backend) (cfg : MultiConfig) (meta : FuncMeta)
    (fImpl : List PyVal → List (String × PyVal) →
      Except String (List (PyVal × PyVal)))
    (args : List PyVal) (kwargs : List (String × PyVal)) (st : Store) :
    Except String (List (PyVal × PyVal)) × Store × List Event :=
  match getCacheKeys cfg meta args kwargs with
  | .error e => (.error e, st, [])
  | .ok keys =>
    let r1 := multiGetFromCache B keys st
    let mp := partitionHits (keys.zip r1.1)
    let kwargs2 := dictSet kwargs cfg.keysFromAttr (.list mp.1)
    if r1.1 ≠ [] ∧ PyVal.none ∉ r1.1 then (.ok mp.2, st, r1.2)
    else
      match fImpl args kwargs2 with
      | .error e => (.error e, st, r1.2 ++ [.invoke args kwargs2])
      | .ok res =>
          let merged := dictUpdate res mp.2
          let r2 := multiSetInCache B cfg merged st
          (.ok merged, r2.1, r1.2 ++ [.invoke args kwargs2] ++ r2.2)

/-! ## Helper lemmas about the dict and store model -/

theorem dictSet_of_not_mem {κ : Type} [DecidableEq κ]
    (d : List (κ × PyVal)) (k : κ) (v : PyVal)
    (h : k ∉ d.map Prod.fst) : dictSet d k v = d ++ [(k, v)] := by
  have hc : d.any (fun p => p.1 = k) = false := by
    simp only [List.any_eq_false, decide_eq_true_eq]
    intro p hp hpk
    exact h (List.mem_map.mpr ⟨p, hp, hpk⟩)
  unfold dictSet
  rw [hc]
  simp

theorem dictLookup_append_right {κ : Type} [DecidableEq κ]
    (d₁ d₂ : List (κ × PyVal)) (k : κ) (h : k ∉ d₁.map Prod.fst) :
    dictLookup (d₁ ++ d₂) k = dictLookup d₂ k := by
  unfold dictLookup
  rw [List.find?_append]
  have : d₁.find? (fun p => p.1 = k) = Option.none := by
    rw [List.find?_eq_none]
    intro p hp hcontra
    exact h (List.mem_map.mpr ⟨p, hp, by simpa using hcontra⟩)
  rw [this, Option.none_or]

theorem dictLookup_singleton_self {κ : Type} [DecidableEq κ] (k : κ)
    (v : PyVal) : dictLookup [(k, v)] k = Option.some v := by
  simp [dictLookup, List.find?]

theorem dictSet_lookup_self {κ : Type} [DecidableEq κ]
    (d : List (κ × PyVal)) (k : κ) (v : PyVal) :
    dictLookup (dictSet d k v) k = Option.some v := by
  by_cases h : k ∈ d.map Prod.fst
  · unfold dictSet
    rw [if_pos]
    · induction d with
      | nil => simp at h
      | cons p rest ih =>
        by_cases hpk : p.1 = k
        · simp [dictLookup, List.find?, hpk]
        · have hk : k ∈ rest.map Prod.fst := by
            rcases List.mem_map.mp h with ⟨q, hq, hqk⟩
            rcases List.mem_cons.mp hq with rfl | hq'
            · exact absurd hqk hpk
            · exact List.mem_map.mpr ⟨q, hq', hqk⟩
          have := ih hk
          simpa [dictLookup, List.find?, hpk] using this
    · simp only [List.any_eq_true, decide_eq_true_eq]
      rcases List.mem_map.mp h with ⟨q, hq, hqk⟩
      exact ⟨q, hq, hqk⟩
  · rw [dictSet_of_not_mem d k v h, dictLookup_append_right d _ k h,
      dictLookup_singleton_self]

theorem lookupStore_storeSet_self (st : Store) (k v : PyVal) :
    lookupStore (storeSet st k v) k = v := by
  unfold lookupStore storeSet
  rw [dictSet_lookup_self]
  rfl

theorem dictUpdate_nil_right {κ : Type} [DecidableEq κ]
    (d : List (κ × PyVal)) : dictUpdate d [] = d := rfl

theorem dictUpdate_append_of_disjoint {κ : Type} [DecidableEq κ] :
    ∀ (d₂ d₁ : List (κ × PyVal)),
    (∀ k ∈ d₂.map Prod.fst, k ∉ d₁.map Prod.fst) →
    (d₂.map Prod.fst).Nodup →
    dictUpdate d₁ d₂ = d₁ ++ d₂
  | [], d₁, _, _ => by rw [dictUpdate_nil_right, List.append_nil]
  | (k, v) :: rest, d₁, hdisj, hnd => by
    have hk : k ∉ d₁.map Prod.fst := hdisj k (by simp)
    have step : dictUpdate d₁ ((k, v) :: rest) =
        dictUpdate (d₁ ++ [(k, v)]) rest := by
      unfold dictUpdate
      simp only [List.foldl_cons]
      rw [dictSet_of_not_mem d₁ k v hk]
    rw [step, dictUpdate_append_of_disjoint rest (d₁ ++ [(k, v)])]
    · simp
    · intro k' hk'
      simp only [List.map_append, List.mem_append, List.map_cons,
        List.map_nil, List.mem_singleton, not_or]
      refine ⟨hdisj k' (by simp [hk']), ?_⟩
      simp only [List.map_cons] at hnd
      rcases List.nodup_cons.mp hnd with ⟨hknotin, _⟩
      rintro rfl
      exact hknotin hk'
    · simp only [List.map_cons] at hnd
      exact (List.nodup_cons.mp hnd).2

/-! ## C8: the derived-key strategy -/

theorem sortedKwargs_perm_eq (kw₁ kw₂ : List (String × PyVal))
    (hperm : kw₁.Perm kw₂) (hnd : (kw₁.map Prod.fst).Nodup) :
    sortedKwargs kw₁ = sortedKwargs kw₂ := by
  haveI : IsTotal (String × PyVal) kwLe := ⟨fun p q => le_total p.1 q.1⟩
  haveI : IsTrans (String × PyVal) kwLe := ⟨fun _ _ _ h1 h2 => le_trans h1 h2⟩
  have hp : (sortedKwargs kw₁).Perm (sortedKwargs kw₂) :=
    ((List.perm_insertionSort kwLe kw₁).trans hperm).trans
      (List.perm_insertionSort kwLe kw₂).symm
  have hs₁ : List.Sorted kwLe (sortedKwargs kw₁) :=
    List.sorted_insertionSort kwLe kw₁
  have hs₂ : List.Sorted kwLe (sortedKwargs kw₂) :=
    List.sorted_insertionSort kwLe kw₂
  have hnd₁ : ((sortedKwargs kw₁).map Prod.fst).Nodup :=
    (((List.perm_insertionSort kwLe kw₁).map Prod.fst).nodup_iff).mpr hnd
  have hnd₂ : ((sortedKwargs kw₂).map Prod.fst).Nodup :=
    (((List.perm_insertionSort kwLe kw₂).map Prod.fst).nodup_iff).mpr
      ((hperm.map Prod.fst).nodup_iff.mp hnd)
  have strict : ∀ (l : List (String × PyVal)), List.Sorted kwLe l →
      (l.map Prod.fst).Nodup →
      l.Pairwise (fun p q : String × PyVal => p.1 < q.1) := by
    intro l hs hn
    have hne : l.Pairwise (fun p q : String × PyVal => p.1 ≠ q.1) :=
      List.pairwise_map.mp hn
    exact (hs.and hne).imp (fun h => lt_of_le_of_ne h.1 h.2)
  haveI : IsAntisymm (String × PyVal) (fun p q => p.1 < q.1) :=
    ⟨fun _ _ h1 h2 => absurd h2 (not_lt.mpr (le_of_lt h1))⟩
  exact List.eq_of_perm_of_sorted hp (strict _ hs₁ hnd₁) (strict _ hs₂ hnd₂)

/-- C8: in the derived-key strategy, key derivation is a deterministic
function of `(module, function name, positional args, keyword args)`
(deriving twice from identical inputs yields identical strings), and two
keyword mappings that are equal as mappings (a permutation of each
other; dict keys are unique) supplied in different insertion orders
yield the same key. -/
theorem keyFromArgs_deterministic_and_order_independent
    (cfg : CachedConfig) (meta : FuncMeta) (args : List PyVal)
    (kw₁ kw₂ : List (String × PyVal))
    (hperm : kw₁.Perm kw₂) (hnd : (kw₁.map Prod.fst).Nodup) :
    keyFromArgs cfg meta args kw₁ = keyFromArgs cfg meta args kw₁ ∧
    keyFromArgs cfg meta args kw₁ = keyFromArgs cfg meta args kw₂ := by
  refine ⟨rfl, ?_⟩
  unfold keyFromArgs
  rw [sortedKwargs_perm_eq kw₁ kw₂ hperm hnd]

/-- Witness for C8 at a concrete input: the kwargs `{b: 2, a: 1}` and
`{a: 1, b: 2}` differ in insertion order and derive the same key. -/
theorem keyFromArgs_deterministic_and_order_independent_witness :
    keyFromArgs {} ⟨"m", "f", [], []⟩ [.int 3]
        [("b", .int 2), ("a", .int 1)] =
      keyFromArgs {} ⟨"m", "f", [], []⟩ [.int 3]
        [("a", .int 1), ("b", .int 2)] :=
  (keyFromArgs_deterministic_and_order_independent {} ⟨"m", "f", [], []⟩
    [.int 3] [("b", .int 2), ("a", .int 1)] [("a", .int 1), ("b", .int 2)]
    (by decide) (by decide)).2

/-! ## C2: missing key-source attribute in the single-value decorator -/

/-- C2 counterexample: with `key_from_attr = "missing"` configured, no
explicit key, and resolved bindings `{n: 1}` that lack the attribute,
`cached.get_cache_key` does **not** fail with a missing-key error — it
produces the derived key `"stub(1,)[]"` (the `dict.get` fallback). -/
theorem getCacheKey_missing_attr_produces_key :
    getCacheKey { keyFromAttr := Option.some "missing" }
        ⟨"", "stub", ["n"], []⟩ [.int 1] [] = .str "stub(1,)[]" := by
  decide

/-- C2 amended: when a key-source attribute is configured, no explicit
key is set, and the resolved argument bindings lack that attribute, the
key-derivation step falls back to the derived
module+name+args+kwargs key instead of failing. -/
theorem getCacheKey_missing_attr_falls_back
    (cfg : CachedConfig) (meta : FuncMeta) (args : List PyVal)
    (kwargs : List (String × PyVal)) (a : String)
    (hkey : pyTruthy cfg.key = false)
    (hattr : cfg.keyFromAttr = Option.some a)
    (hmiss : dictLookup (getArgsDict meta args kwargs) a = Option.none) :
    getCacheKey cfg meta args kwargs =
      .str (keyFromArgs cfg meta args kwargs) := by
  unfold getCacheKey
  rw [if_neg (by simp [hkey]), hattr]
  simp only [hmiss]

/-- Witness for C2's amended theorem at a concrete input. -/
theorem getCacheKey_missing_attr_falls_back_witness :
    getCacheKey { keyFromAttr := Option.some "absent" }
        ⟨"m", "f", ["n"], []⟩ [.int 2] [] =
      .str (keyFromArgs { keyFromAttr := Option.some "absent" }
        ⟨"m", "f", ["n"], []⟩ [.int 2] []) :=
  getCacheKey_missing_attr_falls_back
    { keyFromAttr := Option.some "absent" } ⟨"m", "f", ["n"], []⟩
    [.int 2] [] "absent" (by decide) rfl (by decide)

/-! ## Evaluation lemmas for the multi-key decorator -/

theorem zip_self_map (f : PyVal → PyVal) :
    ∀ l : List PyVal, l.zip (l.map f) = l.map (fun a => (a, f a))
  | [] => rfl
  | a :: l => by simp [zip_self_map f l]

theorem partitionHits_go :
    ∀ (l : List (PyVal × PyVal)) (m : List PyVal)
      (d : List (PyVal × PyVal)),
    (∀ q ∈ l, q.1 ∉ d.map Prod.fst) → (l.map Prod.fst).Nodup →
    l.foldl
      (fun acc p =>
        if p.2 = PyVal.none then (acc.1 ++ [p.1], acc.2)
        else (acc.1, dictSet acc.2 p.1 p.2))
      (m, d) =
    (m ++ (l.filter (fun q => decide (q.2 = PyVal.none))).map Prod.fst,
     d ++ l.filter (fun q => decide (¬q.2 = PyVal.none)))
  | [], m, d, _, _ => by simp
  | (k, v) :: rest, m, d, hdisj, hnd => by
    simp only [List.map_cons] at hnd
    rcases List.nodup_cons.mp hnd with ⟨hkrest, hndrest⟩
    by_cases hv : v = PyVal.none
    · rw [List.foldl_cons, if_pos hv,
        partitionHits_go rest (m ++ [k]) d
          (fun q hq => hdisj q (List.mem_cons_of_mem _ hq)) hndrest]
      simp [hv, List.filter_cons]
    · rw [List.foldl_cons, if_neg hv,
        dictSet_of_not_mem d k v (hdisj (k, v) (List.mem_cons_self _ _)),
        partitionHits_go rest m (d ++ [(k, v)]) ?_ hndrest]
      · simp [hv, List.filter_cons]
      · intro q hq
        simp only [List.map_append, List.mem_append, List.map_cons,
          List.map_nil, not_or]
        refine ⟨hdisj q (List.mem_cons_of_mem _ hq), ?_⟩
        simp only [List.mem_singleton]
        intro hqk
        exact hkrest (hqk ▸ List.mem_map.mpr ⟨q, hq, rfl⟩)

theorem partitionHits_eq (l : List (PyVal × PyVal))
    (hnd : (l.map Prod.fst).Nodup) :
    partitionHits l =
      ((l.filter (fun q => decide (q.2 = PyVal.none))).map Prod.fst,
       l.filter (fun q => decide (¬q.2 = PyVal.none))) := by
  unfold partitionHits
  rw [partitionHits_go l [] [] (by simp) hnd]
  simp

/-- The keys whose lookup misses, in request order. -/
def missingOf (st : Store) (ks : List PyVal) : List PyVal :=
  ks.filter (fun k => decide (lookupStore st k = PyVal.none))

/-- The hit pairs `(key, cached value)`, in request order. -/
def hitsOf (st : Store) (ks : List PyVal) : List (PyVal × PyVal) :=
  (ks.filter (fun k => decide (¬lookupStore st k = PyVal.none))).map
    (fun k => (k, lookupStore st k))

theorem map_fst_pair (f : PyVal → PyVal) :
    ∀ ks : List PyVal, (ks.map (fun a => (a, f a))).map Prod.fst = ks
  | [] => rfl
  | k :: t => by simp [map_fst_pair f t]

theorem filter_pair_none (st : Store) :
    ∀ ks : List PyVal,
    ((ks.map (fun a => (a, lookupStore st a))).filter
        (fun q => decide (q.2 = PyVal.none))).map Prod.fst = missingOf st ks
  | [] => rfl
  | k :: t => by
    by_cases h : lookupStore st k = PyVal.none <;>
      simp [missingOf, List.filter_cons, h, filter_pair_none st t]

theorem filter_pair_hits (st : Store) :
    ∀ ks : List PyVal,
    (ks.map (fun a => (a, lookupStore st a))).filter
        (fun q => decide (¬q.2 = PyVal.none)) = hitsOf st ks
  | [] => rfl
  | k :: t => by
    by_cases h : lookupStore st k = PyVal.none <;>
      simp [hitsOf, List.filter_cons, h] <;>
      simpa [hitsOf] using filter_pair_hits st t

theorem partitionHits_lookup (st : Store) (ks : List PyVal)
    (hnd : ks.Nodup) :
    partitionHits (ks.zip (ks.map (lookupStore st))) =
      (missingOf st ks, hitsOf st ks) := by
  rw [zip_self_map]
  rw [partitionHits_eq]
  · rw [filter_pair_none, filter_pair_hits]
  · rw [map_fst_pair]
    exact hnd

theorem partitionHits_replicate_go :
    ∀ (ks : List PyVal) (m : List PyVal),
    (ks.zip (List.replicate ks.length PyVal.none)).foldl
      (fun acc p =>
        if p.2 = PyVal.none then (acc.1 ++ [p.1], acc.2)
        else (acc.1, dictSet acc.2 p.1 p.2))
      (m, []) = (m ++ ks, [])
  | [], m => by simp
  | k :: rest, m => by
    rw [List.length_cons, List.replicate_succ, List.zip_cons_cons,
      List.foldl_cons,
      if_pos (show ((k, PyVal.none)).2 = PyVal.none from rfl),
      partitionHits_replicate_go rest (m ++ [k])]
    simp

theorem partitionHits_replicate (ks : List PyVal) :
    partitionHits (ks.zip (List.replicate ks.length PyVal.none)) =
      (ks, []) := by
  unfold partitionHits
  rw [partitionHits_replicate_go ks []]
  rfl

theorem multiGetFromCache_mem (B : Backend) (ks : List PyVal) (st : Store)
    (h : ks ≠ []) (vs : List PyVal) (hget : B.multiGet ks st = .ok vs) :
    multiGetFromCache B ks st = (vs, [.multiGet ks]) := by
  unfold multiGetFromCache
  cases ks with
  | nil => exact absurd rfl h
  | cons a t => simp [hget]

theorem multiGetFromCache_err (B : Backend) (ks : List PyVal) (st : Store)
    (h : ks ≠ []) (e : String) (hget : B.multiGet ks st = .error e) :
    multiGetFromCache B ks st =
      (List.replicate ks.length PyVal.none, [.multiGet ks]) := by
  unfold multiGetFromCache
  cases ks with
  | nil => exact absurd rfl h
  | cons a t => simp [hget]

theorem map_fst_hitsOf (st : Store) (ks : List PyVal) :
    (hitsOf st ks).map Prod.fst =
      ks.filter (fun k => decide (¬lookupStore st k = PyVal.none)) :=
  map_fst_pair (lookupStore st) _

theorem multiDecorator_partial_hit_eval
    (cfg : MultiConfig) (meta : FuncMeta)
    (fImpl : List PyVal → List (String × PyVal) →
      Except String (List (PyVal × PyVal)))
    (args : List PyVal) (kwargs : List (String × PyVal)) (st : Store)
    (ks : List PyVal) (computed : List (PyVal × PyVal))
    (hkeys : getCacheKeys cfg meta args kwargs = .ok ks)
    (hnd : ks.Nodup)
    (hmiss : PyVal.none ∈ ks.map (lookupStore st))
    (hf : fImpl args
        (dictSet kwargs cfg.keysFromAttr (.list (missingOf st ks))) =
      .ok computed)
    (hckeys : computed.map Prod.fst = missingOf st ks) :
    multiDecorator memBackend cfg meta fImpl args kwargs st =
      (.ok (computed ++ hitsOf st ks),
       dictUpdate st (computed ++ hitsOf st ks),
       [.multiGet ks,
        .invoke args (dictSet kwargs cfg.keysFromAttr
          (.list (missingOf st ks))),
        .multiSet (computed ++ hitsOf st ks)]) := by
  have hksne : ks ≠ [] := by
    intro h
    rw [h] at hmiss
    simp at hmiss
  have hmget : multiGetFromCache memBackend ks st =
      (ks.map (lookupStore st), [.multiGet ks]) :=
    multiGetFromCache_mem memBackend ks st hksne _ rfl
  have hpart := partitionHits_lookup st ks hnd
  have hmerge : dictUpdate computed (hitsOf st ks) =
      computed ++ hitsOf st ks := by
    apply dictUpdate_append_of_disjoint
    · intro k hk hkc
      rw [map_fst_hitsOf] at hk
      rw [hckeys] at hkc
      have h1 : ¬lookupStore st k = PyVal.none := by
        simpa using (List.mem_filter.mp hk).2
      have h2 : lookupStore st k = PyVal.none := by
        simpa [missingOf] using (List.mem_filter.mp hkc).2
      exact h1 h2
    · rw [map_fst_hitsOf]
      exact hnd.filter _
  have hguard : ¬(ks.map (lookupStore st) ≠ [] ∧
      PyVal.none ∉ ks.map (lookupStore st)) := fun h => h.2 hmiss
  unfold multiDecorator
  rw [hkeys]
  dsimp only
  rw [hmget]
  dsimp only
  rw [hpart]
  dsimp only
  rw [if_neg hguard, hf]
  dsimp only
  rw [hmerge]
  rfl

theorem multiDecorator_full_hit_eval
    (cfg : MultiConfig) (meta : FuncMeta)
    (fImpl : List PyVal → List (String × PyVal) →
      Except String (List (PyVal × PyVal)))
    (args : List PyVal) (kwargs : List (String × PyVal)) (st : Store)
    (ks : List PyVal)
    (hkeys : getCacheKeys cfg meta args kwargs = .ok ks)
    (hnd : ks.Nodup) (hne : ks ≠ [])
    (hhit : ∀ k ∈ ks, lookupStore st k ≠ PyVal.none) :
    multiDecorator memBackend cfg meta fImpl args kwargs st =
      (.ok (hitsOf st ks), st, [.multiGet ks]) := by
  have hmget : multiGetFromCache memBackend ks st =
      (ks.map (lookupStore st), [.multiGet ks]) :=
    multiGetFromCache_mem memBackend ks st hne _ rfl
  have hpart := partitionHits_lookup st ks hnd
  have hguard : ks.map (lookupStore st) ≠ [] ∧
      PyVal.none ∉ ks.map (lookupStore st) := by
    constructor
    · intro h
      exact hne (List.map_eq_nil_iff.mp h)
    · intro h
      rcases List.mem_map.mp h with ⟨k, hk, hkeq⟩
      exact hhit k hk hkeq
  unfold multiDecorator
  rw [hkeys]
  dsimp only
  rw [hmget]
  dsimp only
  rw [hpart]
  dsimp only
  rw [if_pos hguard]

theorem multiSetInCache_events (B : Backend) (cfg : MultiConfig)
    (d : List (PyVal × PyVal)) (st : Store) :
    (multiSetInCache B cfg d st).2 = [.multiSet d] := by
  unfold multiSetInCache
  cases B.multiSet d cfg.ttl st <;> rfl

/-- C9: a `multi_cached` call whose configured keys-attribute resolves
to an empty list never invokes the backend batch-read (`multi_get`) and
still invokes the wrapped function exactly once — for any backend. -/
theorem multiCached_empty_keys_short_circuit
    (B : Backend) (cfg : MultiConfig) (meta : FuncMeta)
    (fImpl : List PyVal → List (String × PyVal) →
      Except String (List (PyVal × PyVal)))
    (args : List PyVal) (kwargs : List (String × PyVal)) (st : Store)
    (hkeys : getCacheKeys cfg meta args kwargs = .ok []) :
    (multiDecorator B cfg meta fImpl args kwargs st).2.2.countP
        Event.isMultiGet = 0 ∧
    (multiDecorator B cfg meta fImpl args kwargs st).2.2.countP
        Event.isInvoke = 1 := by
  unfold multiDecorator
  rw [hkeys]
  dsimp only
  rw [show multiGetFromCache B [] st = ([], []) from rfl]
  dsimp only
  rw [if_neg (by simp)]
  cases hf : fImpl args (dictSet kwargs cfg.keysFromAttr
      (.list (partitionHits (List.zip [] [])).1)) with
  | error e => simp [Event.isMultiGet, Event.isInvoke]
  | ok res =>
      dsimp only
      simp [multiSetInCache_events, Event.isMultiGet, Event.isInvoke,
        Event.isMultiSet, List.countP_cons, List.countP_append]

theorem cachedDecorator_miss_eval
    (cfg : CachedConfig) (meta : FuncMeta)
    (fImpl : List PyVal → List (String × PyVal) → Except String PyVal)
    (args : List PyVal) (kwargs : List (String × PyVal)) (st : Store)
    (v : PyVal)
    (hmiss : lookupStore st (getCacheKey cfg meta args kwargs) = PyVal.none)
    (hf : fImpl args kwargs = .ok v) :
    cachedDecorator memBackend cfg meta fImpl args kwargs st =
      (.ok v, storeSet st (getCacheKey cfg meta args kwargs) v,
       [.get (getCacheKey cfg meta args kwargs), .invoke args kwargs,
        .set (getCacheKey cfg meta args kwargs) v]) := by
  unfold cachedDecorator
  dsimp only
  rw [show getFromCache memBackend (getCacheKey cfg meta args kwargs) st =
      (lookupStore st (getCacheKey cfg meta args kwargs),
       [.get (getCacheKey cfg meta args kwargs)]) from rfl]
  dsimp only
  rw [hmiss, if_neg (by simp), hf]
  rfl

theorem cachedDecorator_miss_err_eval
    (cfg : CachedConfig) (meta : FuncMeta)
    (fImpl : List PyVal → List (String × PyVal) → Except String PyVal)
    (args : List PyVal) (kwargs : List (String × PyVal)) (st : Store)
    (e : String)
    (hmiss : lookupStore st (getCacheKey cfg meta args kwargs) = PyVal.none)
    (hf : fImpl args kwargs = .error e) :
    cachedDecorator memBackend cfg meta fImpl args kwargs st =
      (.error e, st,
       [.get (getCacheKey cfg meta args kwargs), .invoke args kwargs]) := by
  unfold cachedDecorator
  dsimp only
  rw [show getFromCache memBackend (getCacheKey cfg meta args kwargs) st =
      (lookupStore st (getCacheKey cfg meta args kwargs),
       [.get (getCacheKey cfg meta args kwargs)]) from rfl]
  dsimp only
  rw [hmiss, if_neg (by simp), hf]
  rfl

theorem cachedDecorator_failBackend_eval
    (cfg : CachedConfig) (meta : FuncMeta)
    (fImpl : List PyVal → List (String × PyVal) → Except String PyVal)
    (args : List PyVal) (kwargs : List (String × PyVal)) (st : Store)
    (v : PyVal) (hf : fImpl args kwargs = .ok v) :
    cachedDecorator failBackend cfg meta fImpl args kwargs st =
      (.ok v, st,
       [.get (getCacheKey cfg meta args kwargs), .invoke args kwargs,
        .set (getCacheKey cfg meta args kwargs) v]) := by
  unfold cachedDecorator
  dsimp only
  rw [show getFromCache failBackend (getCacheKey cfg meta args kwargs) st =
      (PyVal.none, [.get (getCacheKey cfg meta args kwargs)]) from rfl]
  dsimp only
  rw [if_neg (by simp), hf]
  rfl

theorem stampedeDecorator_miss_err_eval
    (cfg : StampedeConfig) (meta : FuncMeta)
    (fImpl : List PyVal → List (String × PyVal) → Except String PyVal)
    (args : List PyVal) (kwargs : List (String × PyVal)) (st : Store)
    (e : String)
    (hmiss : lookupStore st
      (getCacheKey cfg.toCachedConfig meta args kwargs) = PyVal.none)
    (hf : fImpl args kwargs = .error e) :
    stampedeDecorator memBackend cfg meta fImpl args kwargs st =
      (.error e, st,
       [.get (getCacheKey cfg.toCachedConfig meta args kwargs),
        .acquire (getCacheKey cfg.toCachedConfig meta args kwargs),
        .get (getCacheKey cfg.toCachedConfig meta args kwargs),
        .invoke args kwargs,
        .release (getCacheKey cfg.toCachedConfig meta args kwargs)]) := by
  unfold stampedeDecorator
  dsimp only
  rw [show getFromCache memBackend
      (getCacheKey cfg.toCachedConfig meta args kwargs) st =
      (lookupStore st (getCacheKey cfg.toCachedConfig meta args kwargs),
       [.get (getCacheKey cfg.toCachedConfig meta args kwargs)]) from rfl]
  dsimp only
  rw [hmiss, if_neg (by simp), if_neg (by simp), hf]
  rfl

theorem multiSetInCache_failBackend (cfg : MultiConfig)
    (d : List (PyVal × PyVal)) (st : Store) :
    multiSetInCache failBackend cfg d st = (st, [.multiSet d]) := rfl

theorem multiDecorator_failBackend_eval
    (cfg : MultiConfig) (meta : FuncMeta)
    (fImpl : List PyVal → List (String × PyVal) →
      Except String (List (PyVal × PyVal)))
    (args : List PyVal) (kwargs : List (String × PyVal)) (st : Store)
    (ks : List PyVal) (res : List (PyVal × PyVal))
    (hkeys : getCacheKeys cfg meta args kwargs = .ok ks)
    (hf : fImpl args (dictSet kwargs cfg.keysFromAttr (.list ks)) =
      .ok res) :
    (multiDecorator failBackend cfg meta fImpl args kwargs st).1 =
      .ok res ∧
    (multiDecorator failBackend cfg meta fImpl args kwargs st).2.1 = st := by
  unfold multiDecorator
  rw [hkeys]
  dsimp only
  cases ks with
  | nil =>
      rw [show multiGetFromCache failBackend [] st = ([], []) from rfl]
      dsimp only
      rw [if_neg (by simp)]
      simp only [List.zip_nil_left, partitionHits, List.foldl_nil]
      rw [hf]
      dsimp only
      rw [dictUpdate_nil_right, multiSetInCache_failBackend]
      exact ⟨rfl, rfl⟩
  | cons a t =>
      have hmget : multiGetFromCache failBackend (a :: t) st =
          (List.replicate (a :: t).length PyVal.none,
           [.multiGet (a :: t)]) :=
        multiGetFromCache_err failBackend (a :: t) st (by simp) _ rfl
      rw [hmget]
      dsimp only
      rw [partitionHits_replicate (a :: t)]
      dsimp only
      rw [if_neg (by simp [List.replicate_succ])]
      rw [hf]
      dsimp only
      rw [dictUpdate_nil_right, multiSetInCache_failBackend]
      exact ⟨rfl, rfl⟩

/-- Witness for C9 at a concrete input: `keys=[]`, in-memory backend. -/
theorem multiCached_empty_keys_short_circuit_witness :
    (multiDecorator memBackend { keysFromAttr := "keys" } ⟨"", "f", [], []⟩
        (fun _ _ => .ok []) [] [("keys", .list [])] []).2.2.countP
        Event.isMultiGet = 0 ∧
    (multiDecorator memBackend { keysFromAttr := "keys" } ⟨"", "f", [], []⟩
        (fun _ _ => .ok []) [] [("keys", .list [])] []).2.2.countP
        Event.isInvoke = 1 :=
  multiCached_empty_keys_short_circuit memBackend { keysFromAttr := "keys" }
    ⟨"", "f", [], []⟩ (fun _ _ => .ok []) [] [("keys", .list [])] []
    rfl

/-- C5: on a partial hit (at least one requested key missing from the
cache) the wrapped function is invoked exactly once, receiving the
keys-attribute replaced by only the missing keys, and the decorated call
returns the union of the freshly computed entries and the cached hits. -/
theorem multiCached_partial_hit
    (cfg : MultiConfig) (meta : FuncMeta)
    (fImpl : List PyVal → List (String × PyVal) →
      Except String (List (PyVal × PyVal)))
    (args : List PyVal) (kwargs : List (String × PyVal)) (st : Store)
    (ks : List PyVal) (computed : List (PyVal × PyVal))
    (hkeys : getCacheKeys cfg meta args kwargs = .ok ks)
    (hnd : ks.Nodup)
    (hmiss : PyVal.none ∈ ks.map (lookupStore st))
    (hf : fImpl args
        (dictSet kwargs cfg.keysFromAttr (.list (missingOf st ks))) =
      .ok computed)
    (hckeys : computed.map Prod.fst = missingOf st ks) :
    (multiDecorator memBackend cfg meta fImpl args kwargs st).1 =
      .ok (computed ++ hitsOf st ks) ∧
    (multiDecorator memBackend cfg meta fImpl args kwargs st).2.2.countP
      Event.isInvoke = 1 ∧
    Event.invoke args
        (dictSet kwargs cfg.keysFromAttr (.list (missingOf st ks))) ∈
      (multiDecorator memBackend cfg meta fImpl args kwargs st).2.2 := by
  rw [multiDecorator_partial_hit_eval cfg meta fImpl args kwargs st ks
    computed hkeys hnd hmiss hf hckeys]
  refine ⟨rfl, ?_, ?_⟩
  · simp [List.countP_cons, Event.isInvoke]
  · simp

/-- Witness for C5 at the spec's example: keys `[a, b]`, `a` cached as
`1`, `b` absent and computed as `7`. -/
theorem multiCached_partial_hit_witness :
    (multiDecorator memBackend { keysFromAttr := "keys" } ⟨"", "f", [], []⟩
        (fun _ _ => .ok [(.str "b", .int 7)]) []
        [("keys", .list [.str "a", .str "b"])] [(.str "a", .int 1)]).1 =
      .ok ([(.str "b", .int 7)] ++
        hitsOf [(.str "a", .int 1)] [.str "a", .str "b"]) ∧
    (multiDecorator memBackend { keysFromAttr := "keys" } ⟨"", "f", [], []⟩
        (fun _ _ => .ok [(.str "b", .int 7)]) []
        [("keys", .list [.str "a", .str "b"])]
        [(.str "a", .int 1)]).2.2.countP Event.isInvoke = 1 ∧
    Event.invoke []
        (dictSet [("keys", .list [.str "a", .str "b"])] "keys"
          (.list (missingOf [(.str "a", .int 1)] [.str "a", .str "b"]))) ∈
      (multiDecorator memBackend { keysFromAttr := "keys" } ⟨"", "f", [], []⟩
        (fun _ _ => .ok [(.str "b", .int 7)]) []
        [("keys", .list [.str "a", .str "b"])] [(.str "a", .int 1)]).2.2 :=
  multiCached_partial_hit { keysFromAttr := "keys" } ⟨"", "f", [], []⟩
    (fun _ _ => .ok [(.str "b", .int 7)]) []
    [("keys", .list [.str "a", .str "b"])] [(.str "a", .int 1)]
    [.str "a", .str "b"] [(.str "b", .int 7)]
    rfl (by decide) (by decide) rfl (by decide)

/-- C3 counterexample: keys `[a, b]` with `a` cached as `1` and `b`
computed as `7` — the single `multi_set` call writes
`[(b, 7), (a, 1)]`, which re-writes the hit entry `(a, 1)`, contradicting
"stores exactly the freshly computed entries and does not re-write the
cache hits". -/
theorem multiCached_multiSet_rewrites_hits_counterexample :
    (multiDecorator memBackend { keysFromAttr := "keys" } ⟨"", "f", [], []⟩
        (fun _ _ => .ok [(.str "b", .int 7)]) []
        [("keys", .list [.str "a", .str "b"])] [(.str "a", .int 1)]).2.2 =
      [.multiGet [.str "a", .str "b"],
       .invoke [] [("keys", .list [.str "b"])],
       .multiSet [(.str "b", .int 7), (.str "a", .int 1)]] ∧
    ((.str "a", .int 1) : PyVal × PyVal) ∈
      [((.str "b" : PyVal), (.int 7 : PyVal)), (.str "a", .int 1)] := by
  exact ⟨by decide, by decide⟩

/-- C3 amended: on a call with at least one missing key, the single
batch write (`multi_set`) stores the merged mapping — the freshly
computed entries together with the entries that were cache hits (the
code merges `result.update(partial)` before writing). -/
theorem multiCached_multiSet_writes_merged
    (cfg : MultiConfig) (meta : FuncMeta)
    (fImpl : List PyVal → List (String × PyVal) →
      Except String (List (PyVal × PyVal)))
    (args : List PyVal) (kwargs : List (String × PyVal)) (st : Store)
    (ks : List PyVal) (computed : List (PyVal × PyVal))
    (hkeys : getCacheKeys cfg meta args kwargs = .ok ks)
    (hnd : ks.Nodup)
    (hmiss : PyVal.none ∈ ks.map (lookupStore st))
    (hf : fImpl args
        (dictSet kwargs cfg.keysFromAttr (.list (missingOf st ks))) =
      .ok computed)
    (hckeys : computed.map Prod.fst = missingOf st ks) :
    Event.multiSet (computed ++ hitsOf st ks) ∈
      (multiDecorator memBackend cfg meta fImpl args kwargs st).2.2 ∧
    ∀ p ∈ hitsOf st ks, p ∈ computed ++ hitsOf st ks := by
  rw [multiDecorator_partial_hit_eval cfg meta fImpl args kwargs st ks
    computed hkeys hnd hmiss hf hckeys]
  refine ⟨by simp, fun p hp => List.mem_append_right _ hp⟩

/-- Witness for C3's amended theorem at the counterexample's input. -/
theorem multiCached_multiSet_writes_merged_witness :
    Event.multiSet ([(.str "b", .int 7)] ++
        hitsOf [(.str "a", .int 1)] [.str "a", .str "b"]) ∈
      (multiDecorator memBackend { keysFromAttr := "keys" } ⟨"", "f", [], []⟩
        (fun _ _ => .ok [(.str "b", .int 7)]) []
        [("keys", .list [.str "a", .str "b"])] [(.str "a", .int 1)]).2.2 ∧
    ∀ p ∈ hitsOf [(.str "a", .int 1)] [.str "a", .str "b"],
      p ∈ [(.str "b", .int 7)] ++
        hitsOf [(.str "a", .int 1)] [.str "a", .str "b"] :=
  multiCached_multiSet_writes_merged { keysFromAttr := "keys" }
    ⟨"", "f", [], []⟩ (fun _ _ => .ok [(.str "b", .int 7)]) []
    [("keys", .list [.str "a", .str "b"])] [(.str "a", .int 1)]
    [.str "a", .str "b"] [(.str "b", .int 7)]
    rfl (by decide) (by decide) rfl (by decide)

/-- C4 counterexample: key-builder appends `"!"`; requested key `"a"` is
cached (as `"a!"` ↦ `1`).  The call returns the mapping keyed by the
transformed key `"a!"` — its key list is `["a!"]`, not the original
`["a"]`. -/
theorem multiCached_original_keys_counterexample :
    (multiDecorator memBackend
        { keysFromAttr := "keys",
          keyBuilder := fun k _ =>
            match k with
            | .str s => .str (s ++ "!")
            | v => v }
        ⟨"", "f", [], []⟩ (fun _ _ => .error "unreached") []
        [("keys", .list [.str "a"])] [(.str "a!", .int 1)]).1 =
      .ok [(.str "a!", .int 1)] ∧
    ¬([((.str "a!" : PyVal), (.int 1 : PyVal))].map Prod.fst =
      [PyVal.str "a"]) := by
  exact ⟨rfl, by decide⟩

/-- C4 amended: with a key-builder configured, the mapping returned on a
full hit is keyed by the **transformed** keys used against the cache
(the output of `get_cache_keys`), not by the original pre-transform
requested keys. -/
theorem multiCached_keyed_by_transformed
    (cfg : MultiConfig) (meta : FuncMeta)
    (fImpl : List PyVal → List (String × PyVal) →
      Except String (List (PyVal × PyVal)))
    (args : List PyVal) (kwargs : List (String × PyVal)) (st : Store)
    (ks : List PyVal)
    (hkeys : getCacheKeys cfg meta args kwargs = .ok ks)
    (hnd : ks.Nodup) (hne : ks ≠ [])
    (hhit : ∀ k ∈ ks, lookupStore st k ≠ PyVal.none) :
    (multiDecorator memBackend cfg meta fImpl args kwargs st).1 =
      .ok (hitsOf st ks) ∧
    (hitsOf st ks).map Prod.fst = ks := by
  rw [multiDecorator_full_hit_eval cfg meta fImpl args kwargs st ks
    hkeys hnd hne hhit]
  refine ⟨rfl, ?_⟩
  rw [map_fst_hitsOf]
  apply List.filter_eq_self.mpr
  intro k hk
  simpa using hhit k hk

/-- Witness for C4's amended theorem at the counterexample's input. -/
theorem multiCached_keyed_by_transformed_witness :
    (multiDecorator memBackend
        { keysFromAttr := "keys",
          keyBuilder := fun k _ =>
            match k with
            | .str s => .str (s ++ "!")
            | v => v }
        ⟨"", "f", [], []⟩ (fun _ _ => .error "unreached") []
        [("keys", .list [.str "a"])] [(.str "a!", .int 1)]).1 =
      .ok (hitsOf [(.str "a!", .int 1)] [.str "a!"]) ∧
    (hitsOf [(.str "a!", .int 1)] [.str "a!"]).map Prod.fst =
      [.str "a!"] :=
  multiCached_keyed_by_transformed
    { keysFromAttr := "keys",
      keyBuilder := fun k _ =>
        match k with
        | .str s => .str (s ++ "!")
        | v => v }
    ⟨"", "f", [], []⟩ (fun _ _ => .error "unreached") []
    [("keys", .list [.str "a"])] [(.str "a!", .int 1)] [.str "a!"]
    rfl (by decide) (by decide) (by decide)

theorem multiDecorator_miss_err_eval
    (cfg : MultiConfig) (meta : FuncMeta)
    (fImpl : List PyVal → List (String × PyVal) →
      Except String (List (PyVal × PyVal)))
    (args : List PyVal) (kwargs : List (String × PyVal)) (st : Store)
    (ks : List PyVal) (e : String)
    (hkeys : getCacheKeys cfg meta args kwargs = .ok ks)
    (hreach : PyVal.none ∈ ks.map (lookupStore st) ∨ ks = [])
    (hf : fImpl args (dictSet kwargs cfg.keysFromAttr
        (.list (partitionHits (ks.zip (ks.map (lookupStore st)))).1)) =
      .error e) :
    (multiDecorator memBackend cfg meta fImpl args kwargs st).1 =
      .error e ∧
    (multiDecorator memBackend cfg meta fImpl args kwargs st).2.1 = st ∧
    (multiDecorator memBackend cfg meta fImpl args kwargs st).2.2.countP
      Event.isMultiSet = 0 := by
  unfold multiDecorator
  rw [hkeys]
  dsimp only
  rcases hreach with hmem | rfl
  · have hksne : ks ≠ [] := by
      intro h
      rw [h] at hmem
      simp at hmem
    rw [multiGetFromCache_mem memBackend ks st hksne _ rfl]
    dsimp only
    rw [if_neg (fun h => h.2 hmem), hf]
    exact ⟨rfl, rfl, by simp [Event.isMultiSet]⟩
  · rw [show multiGetFromCache memBackend [] st = ([], []) from rfl]
    dsimp only
    rw [if_neg (by simp)]
    simp only [List.map_nil, List.zip_nil_left, partitionHits,
      List.foldl_nil] at hf ⊢
    rw [hf]
    exact ⟨rfl, rfl, by simp [Event.isMultiSet]⟩

/-- C6: against a backend whose every read and write raises, both the
single-value and the multi-key decorated calls still return the wrapped
function's correct result and leave the store unchanged: the read
failure is treated as a miss (all-missing for the batch read), the write
failure is swallowed, and no backend exception propagates. -/
theorem decorated_calls_contain_backend_failures
    (cfgS : CachedConfig) (metaS : FuncMeta)
    (fS : List PyVal → List (String × PyVal) → Except String PyVal)
    (argsS : List PyVal) (kwargsS : List (String × PyVal)) (stS : Store)
    (v : PyVal) (hfS : fS argsS kwargsS = .ok v)
    (cfgM : MultiConfig) (metaM : FuncMeta)
    (fM : List PyVal → List (String × PyVal) →
      Except String (List (PyVal × PyVal)))
    (argsM : List PyVal) (kwargsM : List (String × PyVal)) (stM : Store)
    (ks : List PyVal) (res : List (PyVal × PyVal))
    (hkeysM : getCacheKeys cfgM metaM argsM kwargsM = .ok ks)
    (hfM : fM argsM (dictSet kwargsM cfgM.keysFromAttr (.list ks)) =
      .ok res) :
    ((cachedDecorator failBackend cfgS metaS fS argsS kwargsS stS).1 =
        .ok v ∧
     (cachedDecorator failBackend cfgS metaS fS argsS kwargsS stS).2.1 =
        stS) ∧
    ((multiDecorator failBackend cfgM metaM fM argsM kwargsM stM).1 =
        .ok res ∧
     (multiDecorator failBackend cfgM metaM fM argsM kwargsM stM).2.1 =
        stM) := by
  refine ⟨?_, multiDecorator_failBackend_eval cfgM metaM fM argsM kwargsM
    stM ks res hkeysM hfM⟩
  rw [cachedDecorator_failBackend_eval cfgS metaS fS argsS kwargsS stS v hfS]
  exact ⟨rfl, rfl⟩

/-- Witness for C6 at concrete inputs (one key, value computed as `7`). -/
theorem decorated_calls_contain_backend_failures_witness :
    ((cachedDecorator failBackend {} ⟨"", "f", [], []⟩
        (fun _ _ => .ok (.int 7)) [] [] [(.str "x", .int 1)]).1 =
        .ok (.int 7) ∧
     (cachedDecorator failBackend {} ⟨"", "f", [], []⟩
        (fun _ _ => .ok (.int 7)) [] [] [(.str "x", .int 1)]).2.1 =
        [(.str "x", .int 1)]) ∧
    ((multiDecorator failBackend { keysFromAttr := "keys" }
        ⟨"", "g", [], []⟩ (fun _ _ => .ok [(.str "a", .int 7)]) []
        [("keys", .list [.str "a"])] [(.str "y", .int 2)]).1 =
        .ok [(.str "a", .int 7)] ∧
     (multiDecorator failBackend { keysFromAttr := "keys" }
        ⟨"", "g", [], []⟩ (fun _ _ => .ok [(.str "a", .int 7)]) []
        [("keys", .list [.str "a"])] [(.str "y", .int 2)]).2.1 =
        [(.str "y", .int 2)]) :=
  decorated_calls_contain_backend_failures {} ⟨"", "f", [], []⟩
    (fun _ _ => .ok (.int 7)) [] [] [(.str "x", .int 1)] (.int 7) rfl
    { keysFromAttr := "keys" } ⟨"", "g", [], []⟩
    (fun _ _ => .ok [(.str "a", .int 7)]) [] [("keys", .list [.str "a"])]
    [(.str "y", .int 2)] [.str "a"] [(.str "a", .int 7)] rfl rfl

/-- C7: for every decorated call (`cached`, `cached_stampede`,
`multi_cached`), when the wrapped function raises, the exception
propagates to the caller unchanged, the store is unchanged, and no value
is written to the cache for that call. -/
theorem wrapped_failure_propagates
    (cfg₁ : CachedConfig) (meta₁ : FuncMeta)
    (f₁ : List PyVal → List (String × PyVal) → Except String PyVal)
    (args₁ : List PyVal) (kwargs₁ : List (String × PyVal)) (st₁ : Store)
    (e₁ : String)
    (hmiss₁ : lookupStore st₁ (getCacheKey cfg₁ meta₁ args₁ kwargs₁) =
      PyVal.none)
    (hf₁ : f₁ args₁ kwargs₁ = .error e₁)
    (cfg₂ : StampedeConfig) (meta₂ : FuncMeta)
    (f₂ : List PyVal → List (String × PyVal) → Except String PyVal)
    (args₂ : List PyVal) (kwargs₂ : List (String × PyVal)) (st₂ : Store)
    (e₂ : String)
    (hmiss₂ : lookupStore st₂
      (getCacheKey cfg₂.toCachedConfig meta₂ args₂ kwargs₂) = PyVal.none)
    (hf₂ : f₂ args₂ kwargs₂ = .error e₂)
    (cfg₃ : MultiConfig) (meta₃ : FuncMeta)
    (f₃ : List PyVal → List (String × PyVal) →
      Except String (List (PyVal × PyVal)))
    (args₃ : List PyVal) (kwargs₃ : List (String × PyVal)) (st₃ : Store)
    (ks₃ : List PyVal) (e₃ : String)
    (hkeys₃ : getCacheKeys cfg₃ meta₃ args₃ kwargs₃ = .ok ks₃)
    (hreach₃ : PyVal.none ∈ ks₃.map (lookupStore st₃) ∨ ks₃ = [])
    (hf₃ : f₃ args₃ (dictSet kwargs₃ cfg₃.keysFromAttr
        (.list (partitionHits (ks₃.zip (ks₃.map (lookupStore st₃)))).1)) =
      .error e₃) :
    ((cachedDecorator memBackend cfg₁ meta₁ f₁ args₁ kwargs₁ st₁).1 =
        .error e₁ ∧
     (cachedDecorator memBackend cfg₁ meta₁ f₁ args₁ kwargs₁ st₁).2.1 =
        st₁ ∧
     (cachedDecorator memBackend cfg₁ meta₁ f₁ args₁ kwargs₁
        st₁).2.2.countP Event.isSet = 0) ∧
    ((stampedeDecorator memBackend cfg₂ meta₂ f₂ args₂ kwargs₂ st₂).1 =
        .error e₂ ∧
     (stampedeDecorator memBackend cfg₂ meta₂ f₂ args₂ kwargs₂ st₂).2.1 =
        st₂ ∧
     (stampedeDecorator memBackend cfg₂ meta₂ f₂ args₂ kwargs₂
        st₂).2.2.countP Event.isSet = 0) ∧
    ((multiDecorator memBackend cfg₃ meta₃ f₃ args₃ kwargs₃ st₃).1 =
        .error e₃ ∧
     (multiDecorator memBackend cfg₃ meta₃ f₃ args₃ kwargs₃ st₃).2.1 =
        st₃ ∧
     (multiDecorator memBackend cfg₃ meta₃ f₃ args₃ kwargs₃
        st₃).2.2.countP Event.isMultiSet = 0) := by
  refine ⟨?_, ?_, multiDecorator_miss_err_eval cfg₃ meta₃ f₃ args₃ kwargs₃
    st₃ ks₃ e₃ hkeys₃ hreach₃ hf₃⟩
  · rw [cachedDecorator_miss_err_eval cfg₁ meta₁ f₁ args₁ kwargs₁ st₁ e₁
      hmiss₁ hf₁]
    exact ⟨rfl, rfl, by simp [Event.isSet]⟩
  · rw [stampedeDecorator_miss_err_eval cfg₂ meta₂ f₂ args₂ kwargs₂ st₂ e₂
      hmiss₂ hf₂]
    exact ⟨rfl, rfl, by simp [Event.isSet]⟩

/-- Witness for C7 at concrete inputs: all three decorators wrap a
function that raises `"boom"` and the caches are empty. -/
theorem wrapped_failure_propagates_witness :
    ((cachedDecorator memBackend {} ⟨"", "f", [], []⟩
        (fun _ _ => .error "boom") [] [] []).1 = .error "boom" ∧
     (cachedDecorator memBackend {} ⟨"", "f", [], []⟩
        (fun _ _ => .error "boom") [] [] []).2.1 = [] ∧
     (cachedDecorator memBackend {} ⟨"", "f", [], []⟩
        (fun _ _ => .error "boom") [] [] []).2.2.countP Event.isSet = 0) ∧
    ((stampedeDecorator memBackend {} ⟨"", "f", [], []⟩
        (fun _ _ => .error "boom") [] [] []).1 = .error "boom" ∧
     (stampedeDecorator memBackend {} ⟨"", "f", [], []⟩
        (fun _ _ => .error "boom") [] [] []).2.1 = [] ∧
     (stampedeDecorator memBackend {} ⟨"", "f", [], []⟩
        (fun _ _ => .error "boom") [] [] []).2.2.countP Event.isSet = 0) ∧
    ((multiDecorator memBackend { keysFromAttr := "keys" }
        ⟨"", "g", [], []⟩ (fun _ _ => .error "boom") []
        [("keys", .list [.str "a"])] []).1 = .error "boom" ∧
     (multiDecorator memBackend { keysFromAttr := "keys" }
        ⟨"", "g", [], []⟩ (fun _ _ => .error "boom") []
        [("keys", .list [.str "a"])] []).2.1 = [] ∧
     (multiDecorator memBackend { keysFromAttr := "keys" }
        ⟨"", "g", [], []⟩ (fun _ _ => .error "boom") []
        [("keys", .list [.str "a"])] []).2.2.countP
        Event.isMultiSet = 0) :=
  wrapped_failure_propagates {} ⟨"", "f", [], []⟩
    (fun _ _ => .error "boom") [] [] [] "boom" rfl rfl
    {} ⟨"", "f", [], []⟩ (fun _ _ => .error "boom") [] [] [] "boom" rfl rfl
    { keysFromAttr := "keys" } ⟨"", "g", [], []⟩
    (fun _ _ => .error "boom") [] [("keys", .list [.str "a"])] []
    [.str "a"] "boom" rfl (by decide) rfl

/-- C10: for the single-value decorator a stored `None` is
indistinguishable from a miss.  If the wrapped function returns `None`
on a call that misses, the result is written to the cache, yet the
resulting store still reads back `None` for the key, so the next call
misses again: it invokes the wrapped function again and writes again —
a `None`-valued result is never served from cache. -/
theorem cached_none_result_never_served
    (cfg : CachedConfig) (meta : FuncMeta)
    (fImpl : List PyVal → List (String × PyVal) → Except String PyVal)
    (args : List PyVal) (kwargs : List (String × PyVal)) (st : Store)
    (hmiss : lookupStore st (getCacheKey cfg meta args kwargs) = PyVal.none)
    (hf : fImpl args kwargs = .ok PyVal.none) :
    (cachedDecorator memBackend cfg meta fImpl args kwargs st).1 =
      .ok PyVal.none ∧
    (cachedDecorator memBackend cfg meta fImpl args kwargs st).2.1 =
      storeSet st (getCacheKey cfg meta args kwargs) PyVal.none ∧
    Event.set (getCacheKey cfg meta args kwargs) PyVal.none ∈
      (cachedDecorator memBackend cfg meta fImpl args kwargs st).2.2 ∧
    lookupStore
      (cachedDecorator memBackend cfg meta fImpl args kwargs st).2.1
      (getCacheKey cfg meta args kwargs) = PyVal.none ∧
    (cachedDecorator memBackend cfg meta fImpl args kwargs
      (cachedDecorator memBackend cfg meta fImpl args kwargs
        st).2.1).2.2.countP Event.isInvoke = 1 ∧
    Event.set (getCacheKey cfg meta args kwargs) PyVal.none ∈
      (cachedDecorator memBackend cfg meta fImpl args kwargs
        (cachedDecorator memBackend cfg meta fImpl args kwargs
          st).2.1).2.2 := by
  have h1 := cachedDecorator_miss_eval cfg meta fImpl args kwargs st
    PyVal.none hmiss hf
  rw [h1]
  have hmiss2 : lookupStore
      (storeSet st (getCacheKey cfg meta args kwargs) PyVal.none)
      (getCacheKey cfg meta args kwargs) = PyVal.none :=
    lookupStore_storeSet_self st _ _
  have h2 := cachedDecorator_miss_eval cfg meta fImpl args kwargs
    (storeSet st (getCacheKey cfg meta args kwargs) PyVal.none)
    PyVal.none hmiss2 hf
  rw [h2]
  refine ⟨rfl, rfl, by simp, hmiss2, ?_, by simp⟩
  simp [List.countP_cons, Event.isInvoke]

/-- Witness for C10 at a concrete input: empty cache, wrapped function
constantly returning `None`. -/
theorem cached_none_result_never_served_witness :
    (cachedDecorator memBackend {} ⟨"", "f", [], []⟩
        (fun _ _ => .ok PyVal.none) [] [] []).1 = .ok PyVal.none ∧
    (cachedDecorator memBackend {} ⟨"", "f", [], []⟩
        (fun _ _ => .ok PyVal.none) [] [] []).2.1 =
      storeSet [] (getCacheKey {} ⟨"", "f", [], []⟩ [] []) PyVal.none ∧
    Event.set (getCacheKey {} ⟨"", "f", [], []⟩ [] []) PyVal.none ∈
      (cachedDecorator memBackend {} ⟨"", "f", [], []⟩
        (fun _ _ => .ok PyVal.none) [] [] []).2.2 ∧
    lookupStore
      (cachedDecorator memBackend {} ⟨"", "f", [], []⟩
        (fun _ _ => .ok PyVal.none) [] [] []).2.1
      (getCacheKey {} ⟨"", "f", [], []⟩ [] []) = PyVal.none ∧
    (cachedDecorator memBackend {} ⟨"", "f", [], []⟩
      (fun _ _ => .ok PyVal.none) [] []
      (cachedDecorator memBackend {} ⟨"", "f", [], []⟩
        (fun _ _ => .ok PyVal.none) [] [] []).2.1).2.2.countP
      Event.isInvoke = 1 ∧
    Event.set (getCacheKey {} ⟨"", "f", [], []⟩ [] []) PyVal.none ∈
      (cachedDecorator memBackend {} ⟨"", "f", [], []⟩
        (fun _ _ => .ok PyVal.none) [] []
        (cachedDecorator memBackend {} ⟨"", "f", [], []⟩
          (fun _ _ => .ok PyVal.none) [] [] []).2.1).2.2 :=
  cached_none_result_never_served {} ⟨"", "f", [], []⟩
    (fun _ _ => .ok PyVal.none) [] [] [] rfl rfl

/-! ## C1: the stampede protocol under N concurrent callers

The spec models execution as single-threaded cooperative concurrency
(spec §5): logical callers interleave only at suspension points (cache
reads, the wrapped call, the lock wait, the write).  We model
`cached_stampede.decorator` for N callers of one key as a small-step
system: the state holds the shared cache cell for that key, the lock,
the counters, and each caller's program counter; a schedule is the list
of caller indices handed the processor, one suspension-point step each.

The `_redlock` acquire/release live in `aiocache/base.py`, which is not
among the sources here.  Modelled from the spec: acquire is a blocking
insert-if-absent retry loop and release deletes the lock record (spec
§4.5); a scheduled step of a blocked caller is a no-op retry, and a
successful acquisition is counted once per caller — the spec's own
reading "attempted exactly N times (once per caller)".  The premise
"lease ≥ critical-section duration" becomes: the lock never expires
while held (the model keeps no clock).  "All N callers miss" is the
hypothesis that every caller finishes having taken the miss path at its
initial lookup.  The `value is not None` hit test of `get_from_cache`
is kept exactly as in the code — which is what lets a computed `None`
defeat the exactly-once guarantee (see the counterexample). -/

/-- How a finished caller obtained its result: hit at the initial
lookup, hit at the double-checked lookup inside the lock, or computed
it itself. -/
inductive Src where
  | initialHit
  | lockHit
  | computed
deriving DecidableEq

/-- Program counter of one stampede caller — one constructor per
suspension point of `cached_stampede.decorator`. -/
inductive CPC where
  | start
  | toAcquire
  | locked
  | toCompute
  | toStore
  | toRelease : PyVal → Src → CPC
  | done : PyVal → Src → CPC
deriving DecidableEq

/-- Shared state of the N-caller system for one key. -/
structure SSt where
  cache : PyVal
  lock : Bool
  invoked : Nat
  acquired : Nat
  released : Nat
  callers : List CPC

/-- Replace caller `i`'s program counter. -/
def SSt.setPc (s : SSt) (i : Nat) (pc : CPC) : SSt :=
  { s with callers := s.callers.set i pc }

/-- One scheduled step of caller `i`: the transition at its current
suspension point, or a no-op if it is blocked on the lock or finished. -/
def stepCaller (fval : PyVal) (s : SSt) (i : Nat) : SSt :=
  match s.callers[i]? with
  | Option.none => s
  | Option.some .start =>
      if s.cache ≠ PyVal.none then s.setPc i (.done s.cache .initialHit)
      else s.setPc i .toAcquire
  | Option.some .toAcquire =>
      if s.lock then s
      else
        { s.setPc i .locked with
            lock := true
            acquired := s.acquired + 1 }
  | Option.some .locked =>
      if s.cache ≠ PyVal.none then s.setPc i (.toRelease s.cache .lockHit)
      else s.setPc i .toCompute
  | Option.some .toCompute =>
      { s.setPc i .toStore with invoked := s.invoked + 1 }
  | Option.some .toStore =>
      { s.setPc i (.toRelease fval .computed) with cache := fval }
  | Option.some (.toRelease r src) =>
      { s.setPc i (.done r src) with
          lock := false
          released := s.released + 1 }
  | Option.some (.done _ _) => s

/-- Run a schedule (list of caller indices) from a state. -/
def runSched (fval : PyVal) : SSt → List Nat → SSt
  | s, [] => s
  | s, i :: rest => runSched fval (stepCaller fval s i) rest

/-- Initial state: empty cache cell, free lock, N callers at `start`. -/
def initSt (n : Nat) : SSt :=
  ⟨PyVal.none, false, 0, 0, 0, List.replicate n .start⟩

/-- The caller holds the lock. -/
def CPC.inLock : CPC → Bool
  | .locked | .toCompute | .toStore | .toRelease _ _ => true
  | _ => false

/-- The caller is between invoking `f` and (inclusive) the write. -/
def CPC.isComputing : CPC → Bool
  | .toCompute | .toStore => true
  | _ => false

/-- The caller has invoked `f` but not yet written. -/
def CPC.isToStore : CPC → Bool
  | .toStore => true
  | _ => false

/-- The caller computed the value itself (and has at least written it). -/
def CPC.isComputedIsh : CPC → Bool
  | .toRelease _ .computed | .done _ .computed => true
  | _ => false

/-- The caller observed the value at the in-lock double-checked lookup. -/
def CPC.isLockHitIsh : CPC → Bool
  | .toRelease _ .lockHit | .done _ .lockHit => true
  | _ => false

/-- The caller finished after taking the miss path initially. -/
def CPC.isDoneMissed : CPC → Bool
  | .done _ .lockHit | .done _ .computed => true
  | _ => false

/-- The caller is finished. -/
def CPC.isDone : CPC → Bool
  | .done _ _ => true
  | _ => false

/-- A release state tagged `initialHit` — never reachable. -/
def CPC.isBadRelease : CPC → Bool
  | .toRelease _ .initialHit => true
  | _ => false

/-- Results carried by in-lock finishers equal the computed value. -/
def CPC.resultOK (fval : PyVal) : CPC → Bool
  | .toRelease _ .initialHit => true
  | .toRelease r _ => decide (r = fval)
  | .done _ .initialHit => true
  | .done r _ => decide (r = fval)
  | _ => true

/-- C1 counterexample: two concurrent callers, both missing the key,
lock never expiring (lease ≥ critical section), but the wrapped
function computes `None`.  The schedule lets caller 0 run the whole
critical section first; caller 1 then acquires, re-checks, still sees
`None` (the stored `None` is indistinguishable from a miss) and
computes again: the wrapped function is invoked twice, not exactly
once. -/
theorem stampede_none_double_compute_counterexample :
    (runSched PyVal.none (initSt 2)
        [0, 1, 0, 0, 0, 0, 0, 1, 1, 1, 1, 1]).invoked = 2 ∧
    (∀ pc ∈ (runSched PyVal.none (initSt 2)
        [0, 1, 0, 0, 0, 0, 0, 1, 1, 1, 1, 1]).callers,
      pc.isDone = true) ∧
    (∀ pc ∈ (runSched PyVal.none (initSt 2)
        [0, 1, 0, 0, 0, 0, 0, 1, 1, 1, 1, 1]).callers,
      pc.isDoneMissed = true) ∧
    (runSched PyVal.none (initSt 2)
        [0, 1, 0, 0, 0, 0, 0, 1, 1, 1, 1, 1]).acquired = 2 ∧
    (runSched PyVal.none (initSt 2)
        [0, 1, 0, 0, 0, 0, 0, 1, 1, 1, 1, 1]).released = 2 := by
  decide

theorem countP_set_same (p : CPC → Bool) (l : List CPC) (i : Nat) (x : CPC)
    (h : i < l.length) (heq : p l[i] = p x) :
    (l.set i x).countP p = l.countP p := by
  rw [List.countP_set p l i x h, ← heq]
  cases hx : p l[i] with
  | false => simp [hx]
  | true =>
      have hpos : 0 < l.countP p :=
        List.countP_pos_iff.mpr ⟨l[i], List.getElem_mem h, hx⟩
      rw [if_pos (rfl : true = true)]
      omega

theorem countP_set_incr (p : CPC → Bool) (l : List CPC) (i : Nat) (x : CPC)
    (h : i < l.length) (h1 : p l[i] = false) (h2 : p x = true) :
    (l.set i x).countP p = l.countP p + 1 := by
  rw [List.countP_set p l i x h, if_neg (by simp [h1]), if_pos h2]
  omega

theorem countP_set_decr (p : CPC → Bool) (l : List CPC) (i : Nat) (x : CPC)
    (h : i < l.length) (h1 : p l[i] = true) (h2 : p x = false) :
    l.countP p = (l.set i x).countP p + 1 := by
  have hpos : 0 < l.countP p :=
    List.countP_pos_iff.mpr ⟨l[i], List.getElem_mem h, h1⟩
  rw [List.countP_set p l i x h, if_pos h1, if_neg (by simp [h2])]
  omega

/-- The inductive invariant of the N-caller stampede system: mutual
exclusion, counter bookkeeping, cache monotonicity and result
correctness, for a computed value that is not `None`. -/
structure SInv (fval : PyVal) (s : SSt) : Prop where
  lockIff : s.lock = true ↔ 0 < s.callers.countP CPC.inLock
  oneLock : s.callers.countP CPC.inLock ≤ 1
  cacheVal : s.cache = PyVal.none ∨ s.cache = fval
  compCacheNone : 0 < s.callers.countP CPC.isComputing →
    s.cache = PyVal.none
  invokedEq : s.invoked =
    s.callers.countP CPC.isToStore + s.callers.countP CPC.isComputedIsh
  cacheIff : s.cache ≠ PyVal.none ↔
    0 < s.callers.countP CPC.isComputedIsh
  oneComputed : s.callers.countP CPC.isComputedIsh ≤ 1
  acquiredEq : s.acquired =
    s.callers.countP CPC.inLock + s.callers.countP CPC.isDoneMissed
  releasedEq : s.released = s.callers.countP CPC.isDoneMissed
  noBadRelease : s.callers.countP CPC.isBadRelease = 0
  resOK : ∀ pc ∈ s.callers, CPC.resultOK fval pc = true
  lockHitCache : 0 < s.callers.countP CPC.isLockHitIsh →
    s.cache ≠ PyVal.none

theorem SInv.init (fval : PyVal) (n : Nat) : SInv fval (initSt n) := by
  have hz : ∀ p : CPC → Bool, p .start = false →
      (List.replicate n CPC.start).countP p = 0 := by
    intro p hp
    rw [List.countP_eq_zero]
    intro a ha
    rw [List.eq_of_mem_replicate ha, hp]
    exact Bool.false_ne_true
  refine ⟨?_, ?_, ?_, ?_, ?_, ?_, ?_, ?_, ?_, ?_, ?_, ?_⟩ <;>
    dsimp only [initSt]
  · rw [hz CPC.inLock rfl]
    simp
  · rw [hz CPC.inLock rfl]
    omega
  · exact Or.inl rfl
  · intro _
    rfl
  · rw [hz CPC.isToStore rfl, hz CPC.isComputedIsh rfl]
  · rw [hz CPC.isComputedIsh rfl]
    simp
  · rw [hz CPC.isComputedIsh rfl]
    omega
  · rw [hz CPC.inLock rfl, hz CPC.isDoneMissed rfl]
  · rw [hz CPC.isDoneMissed rfl]
  · exact hz CPC.isBadRelease rfl
  · intro pc hpc
    rw [List.eq_of_mem_replicate hpc]
    rfl
  · rw [hz CPC.isLockHitIsh rfl]
    simp

theorem SInv.step (fval : PyVal) (hfval : fval ≠ PyVal.none)
    (s : SSt) (i : Nat) (hinv : SInv fval s) :
    SInv fval (stepCaller fval s i) := by
  obtain ⟨hlk, h1L, hcv, hccn, hinvk, hciff, h1C, hacq, hrel, hnbr, hres,
    hlhc⟩ := hinv
  unfold stepCaller
  cases hget : s.callers[i]? with
  | none =>
      exact ⟨hlk, h1L, hcv, hccn, hinvk, hciff, h1C, hacq, hrel, hnbr,
        hres, hlhc⟩
  | some pc =>
    obtain ⟨hi, hpci⟩ := List.getElem?_eq_some.mp hget
    cases pc with
    | start =>
      dsimp only
      by_cases hc : s.cache ≠ PyVal.none
      · rw [if_pos hc]
        have eL := countP_set_same CPC.inLock s.callers i
          (.done s.cache .initialHit) hi (by rw [hpci]; rfl)
        have eC := countP_set_same CPC.isComputing s.callers i
          (.done s.cache .initialHit) hi (by rw [hpci]; rfl)
        have eT := countP_set_same CPC.isToStore s.callers i
          (.done s.cache .initialHit) hi (by rw [hpci]; rfl)
        have eI := countP_set_same CPC.isComputedIsh s.callers i
          (.done s.cache .initialHit) hi (by rw [hpci]; rfl)
        have eH := countP_set_same CPC.isLockHitIsh s.callers i
          (.done s.cache .initialHit) hi (by rw [hpci]; rfl)
        have eM := countP_set_same CPC.isDoneMissed s.callers i
          (.done s.cache .initialHit) hi (by rw [hpci]; rfl)
        have eB := countP_set_same CPC.isBadRelease s.callers i
          (.done s.cache .initialHit) hi (by rw [hpci]; rfl)
        refine ⟨?_, ?_, ?_, ?_, ?_, ?_, ?_, ?_, ?_, ?_, ?_, ?_⟩ <;>
          dsimp only [SSt.setPc]
        · rw [eL]; exact hlk
        · rw [eL]; exact h1L
        · exact hcv
        · rw [eC]; exact hccn
        · rw [eT, eI]; exact hinvk
        · rw [eI]; exact hciff
        · rw [eI]; exact h1C
        · rw [eL, eM]; exact hacq
        · rw [eM]; exact hrel
        · rw [eB]; exact hnbr
        · intro pc' hpc'
          rcases List.mem_or_eq_of_mem_set hpc' with hold | rfl
          · exact hres pc' hold
          · rfl
        · rw [eH]; exact hlhc
      · rw [if_neg hc]
        have eL := countP_set_same CPC.inLock s.callers i .toAcquire hi
          (by rw [hpci]; rfl)
        have eC := countP_set_same CPC.isComputing s.callers i .toAcquire
          hi (by rw [hpci]; rfl)
        have eT := countP_set_same CPC.isToStore s.callers i .toAcquire hi
          (by rw [hpci]; rfl)
        have eI := countP_set_same CPC.isComputedIsh s.callers i
          .toAcquire hi (by rw [hpci]; rfl)
        have eH := countP_set_same CPC.isLockHitIsh s.callers i .toAcquire
          hi (by rw [hpci]; rfl)
        have eM := countP_set_same CPC.isDoneMissed s.callers i .toAcquire
          hi (by rw [hpci]; rfl)
        have eB := countP_set_same CPC.isBadRelease s.callers i .toAcquire
          hi (by rw [hpci]; rfl)
        refine ⟨?_, ?_, ?_, ?_, ?_, ?_, ?_, ?_, ?_, ?_, ?_, ?_⟩ <;>
          dsimp only [SSt.setPc]
        · rw [eL]; exact hlk
        · rw [eL]; exact h1L
        · exact hcv
        · rw [eC]; exact hccn
        · rw [eT, eI]; exact hinvk
        · rw [eI]; exact hciff
        · rw [eI]; exact h1C
        · rw [eL, eM]; exact hacq
        · rw [eM]; exact hrel
        · rw [eB]; exact hnbr
        · intro pc' hpc'
          rcases List.mem_or_eq_of_mem_set hpc' with hold | rfl
          · exact hres pc' hold
          · rfl
        · rw [eH]; exact hlhc
    | toAcquire =>
      dsimp only
      by_cases hb : s.lock = true
      · rw [if_pos hb]
        exact ⟨hlk, h1L, hcv, hccn, hinvk, hciff, h1C, hacq, hrel, hnbr,
          hres, hlhc⟩
      · rw [if_neg hb]
        have hL0 : s.callers.countP CPC.inLock = 0 := by
          by_contra hne
          exact hb (hlk.mpr (Nat.pos_of_ne_zero hne))
        have eL := countP_set_incr CPC.inLock s.callers i .locked hi
          (by rw [hpci]; rfl) rfl
        have eC := countP_set_same CPC.isComputing s.callers i .locked hi
          (by rw [hpci]; rfl)
        have eT := countP_set_same CPC.isToStore s.callers i .locked hi
          (by rw [hpci]; rfl)
        have eI := countP_set_same CPC.isComputedIsh s.callers i .locked
          hi (by rw [hpci]; rfl)
        have eH := countP_set_same CPC.isLockHitIsh s.callers i .locked hi
          (by rw [hpci]; rfl)
        have eM := countP_set_same CPC.isDoneMissed s.callers i .locked hi
          (by rw [hpci]; rfl)
        have eB := countP_set_same CPC.isBadRelease s.callers i .locked hi
          (by rw [hpci]; rfl)
        refine ⟨?_, ?_, ?_, ?_, ?_, ?_, ?_, ?_, ?_, ?_, ?_, ?_⟩ <;>
          dsimp only [SSt.setPc]
        · rw [eL]
          exact iff_of_true rfl (by omega)
        · rw [eL]
          omega
        · exact hcv
        · rw [eC]; exact hccn
        · rw [eT, eI]; exact hinvk
        · rw [eI]; exact hciff
        · rw [eI]; exact h1C
        · rw [eL, eM]; omega
        · rw [eM]; exact hrel
        · rw [eB]; exact hnbr
        · intro pc' hpc'
          rcases List.mem_or_eq_of_mem_set hpc' with hold | rfl
          · exact hres pc' hold
          · rfl
        · rw [eH]; exact hlhc
    | locked =>
      dsimp only
      by_cases hc : s.cache ≠ PyVal.none
      · rw [if_pos hc]
        have eL := countP_set_same CPC.inLock s.callers i
          (.toRelease s.cache .lockHit) hi (by rw [hpci]; rfl)
        have eC := countP_set_same CPC.isComputing s.callers i
          (.toRelease s.cache .lockHit) hi (by rw [hpci]; rfl)
        have eT := countP_set_same CPC.isToStore s.callers i
          (.toRelease s.cache .lockHit) hi (by rw [hpci]; rfl)
        have eI := countP_set_same CPC.isComputedIsh s.callers i
          (.toRelease s.cache .lockHit) hi (by rw [hpci]; rfl)
        have eH := countP_set_incr CPC.isLockHitIsh s.callers i
          (.toRelease s.cache .lockHit) hi (by rw [hpci]; rfl) rfl
        have eM := countP_set_same CPC.isDoneMissed s.callers i
          (.toRelease s.cache .lockHit) hi (by rw [hpci]; rfl)
        have eB := countP_set_same CPC.isBadRelease s.callers i
          (.toRelease s.cache .lockHit) hi (by rw [hpci]; rfl)
        refine ⟨?_, ?_, ?_, ?_, ?_, ?_, ?_, ?_, ?_, ?_, ?_, ?_⟩ <;>
          dsimp only [SSt.setPc]
        · rw [eL]; exact hlk
        · rw [eL]; exact h1L
        · exact hcv
        · rw [eC]; exact hccn
        · rw [eT, eI]; exact hinvk
        · rw [eI]; exact hciff
        · rw [eI]; exact h1C
        · rw [eL, eM]; exact hacq
        · rw [eM]; exact hrel
        · rw [eB]; exact hnbr
        · intro pc' hpc'
          rcases List.mem_or_eq_of_mem_set hpc' with hold | rfl
          · exact hres pc' hold
          · rcases hcv with hnone | hfv
            · exact absurd hnone hc
            · simp [CPC.resultOK, hfv]
        · intro _
          exact hc
      · rw [if_neg hc]
        have hceq : s.cache = PyVal.none := not_not.mp hc
        have eL := countP_set_same CPC.inLock s.callers i .toCompute hi
          (by rw [hpci]; rfl)
        have eC := countP_set_incr CPC.isComputing s.callers i .toCompute
          hi (by rw [hpci]; rfl) rfl
        have eT := countP_set_same CPC.isToStore s.callers i .toCompute hi
          (by rw [hpci]; rfl)
        have eI := countP_set_same CPC.isComputedIsh s.callers i
          .toCompute hi (by rw [hpci]; rfl)
        have eH := countP_set_same CPC.isLockHitIsh s.callers i .toCompute
          hi (by rw [hpci]; rfl)
        have eM := countP_set_same CPC.isDoneMissed s.callers i .toCompute
          hi (by rw [hpci]; rfl)
        have eB := countP_set_same CPC.isBadRelease s.callers i .toCompute
          hi (by rw [hpci]; rfl)
        refine ⟨?_, ?_, ?_, ?_, ?_, ?_, ?_, ?_, ?_, ?_, ?_, ?_⟩ <;>
          dsimp only [SSt.setPc]
        · rw [eL]; exact hlk
        · rw [eL]; exact h1L
        · exact hcv
        · intro _
          exact hceq
        · rw [eT, eI]; exact hinvk
        · rw [eI]; exact hciff
        · rw [eI]; exact h1C
        · rw [eL, eM]; exact hacq
        · rw [eM]; exact hrel
        · rw [eB]; exact hnbr
        · intro pc' hpc'
          rcases List.mem_or_eq_of_mem_set hpc' with hold | rfl
          · exact hres pc' hold
          · rfl
        · rw [eH]; exact hlhc
    | toCompute =>
      dsimp only
      have eL := countP_set_same CPC.inLock s.callers i .toStore hi
        (by rw [hpci]; rfl)
      have eC := countP_set_same CPC.isComputing s.callers i .toStore hi
        (by rw [hpci]; rfl)
      have eT := countP_set_incr CPC.isToStore s.callers i .toStore hi
        (by rw [hpci]; rfl) rfl
      have eI := countP_set_same CPC.isComputedIsh s.callers i .toStore hi
        (by rw [hpci]; rfl)
      have eH := countP_set_same CPC.isLockHitIsh s.callers i .toStore hi
        (by rw [hpci]; rfl)
      have eM := countP_set_same CPC.isDoneMissed s.callers i .toStore hi
        (by rw [hpci]; rfl)
      have eB := countP_set_same CPC.isBadRelease s.callers i .toStore hi
        (by rw [hpci]; rfl)
      refine ⟨?_, ?_, ?_, ?_, ?_, ?_, ?_, ?_, ?_, ?_, ?_, ?_⟩ <;>
        dsimp only [SSt.setPc]
      · rw [eL]; exact hlk
      · rw [eL]; exact h1L
      · exact hcv
      · rw [eC]; exact hccn
      · rw [eT, eI]; omega
      · rw [eI]; exact hciff
      · rw [eI]; exact h1C
      · rw [eL, eM]; exact hacq
      · rw [eM]; exact hrel
      · rw [eB]; exact hnbr
      · intro pc' hpc'
        rcases List.mem_or_eq_of_mem_set hpc' with hold | rfl
        · exact hres pc' hold
        · rfl
      · rw [eH]; exact hlhc
    | toStore =>
      dsimp only
      have hcompPos : 0 < s.callers.countP CPC.isComputing :=
        List.countP_pos_iff.mpr
          ⟨s.callers[i], List.getElem_mem hi, by rw [hpci]; rfl⟩
      have hcacheNone : s.cache = PyVal.none := hccn hcompPos
      have hCI0 : s.callers.countP CPC.isComputedIsh = 0 := by
        by_contra hne
        exact (hciff.mpr (Nat.pos_of_ne_zero hne)) hcacheNone
      have hCompLe : s.callers.countP CPC.isComputing ≤
          s.callers.countP CPC.inLock := by
        apply List.countP_mono_left
        intro a _ ha
        cases a <;> simp_all [CPC.isComputing, CPC.inLock]
      have eL := countP_set_same CPC.inLock s.callers i
        (.toRelease fval .computed) hi (by rw [hpci]; rfl)
      have eC := countP_set_decr CPC.isComputing s.callers i
        (.toRelease fval .computed) hi (by rw [hpci]; rfl) rfl
      have eT := countP_set_decr CPC.isToStore s.callers i
        (.toRelease fval .computed) hi (by rw [hpci]; rfl) rfl
      have eI := countP_set_incr CPC.isComputedIsh s.callers i
        (.toRelease fval .computed) hi (by rw [hpci]; rfl) rfl
      have eH := countP_set_same CPC.isLockHitIsh s.callers i
        (.toRelease fval .computed) hi (by rw [hpci]; rfl)
      have eM := countP_set_same CPC.isDoneMissed s.callers i
        (.toRelease fval .computed) hi (by rw [hpci]; rfl)
      have eB := countP_set_same CPC.isBadRelease s.callers i
        (.toRelease fval .computed) hi (by rw [hpci]; rfl)
      refine ⟨?_, ?_, ?_, ?_, ?_, ?_, ?_, ?_, ?_, ?_, ?_, ?_⟩ <;>
        dsimp only [SSt.setPc]
      · rw [eL]; exact hlk
      · rw [eL]; exact h1L
      · exact Or.inr rfl
      · intro h
        exact absurd h (by omega)
      · rw [eI] at *
        omega
      · rw [eI]
        exact iff_of_true hfval (by omega)
      · rw [eI]
        omega
      · rw [eL, eM]; exact hacq
      · rw [eM]; exact hrel
      · rw [eB]; exact hnbr
      · intro pc' hpc'
        rcases List.mem_or_eq_of_mem_set hpc' with hold | rfl
        · exact hres pc' hold
        · simp [CPC.resultOK]
      · intro _
        exact hfval
    | toRelease r src =>
      dsimp only
      have hsrc : src ≠ Src.initialHit := by
        intro hs
        subst hs
        have hpos : 0 < s.callers.countP CPC.isBadRelease :=
          List.countP_pos_iff.mpr
            ⟨s.callers[i], List.getElem_mem hi, by rw [hpci]; rfl⟩
        omega
      have hLpos : 0 < s.callers.countP CPC.inLock :=
        List.countP_pos_iff.mpr
          ⟨s.callers[i], List.getElem_mem hi, by rw [hpci]; rfl⟩
      have eL := countP_set_decr CPC.inLock s.callers i (.done r src) hi
        (by rw [hpci]; rfl) rfl
      have eC := countP_set_same CPC.isComputing s.callers i (.done r src)
        hi (by rw [hpci]; rfl)
      have eT := countP_set_same CPC.isToStore s.callers i (.done r src)
        hi (by rw [hpci]; rfl)
      have eI := countP_set_same CPC.isComputedIsh s.callers i
        (.done r src) hi (by rw [hpci]; cases src <;> rfl)
      have eH := countP_set_same CPC.isLockHitIsh s.callers i
        (.done r src) hi (by rw [hpci]; cases src <;> rfl)
      have eM := countP_set_incr CPC.isDoneMissed s.callers i
        (.done r src) hi (by rw [hpci]; cases src <;> rfl)
        (by cases src with
          | initialHit => exact absurd rfl hsrc
          | lockHit => rfl
          | computed => rfl)
      have eB := countP_set_same CPC.isBadRelease s.callers i
        (.done r src) hi
        (by rw [hpci]
            cases src with
            | initialHit => exact absurd rfl hsrc
            | lockHit => rfl
            | computed => rfl)
      refine ⟨?_, ?_, ?_, ?_, ?_, ?_, ?_, ?_, ?_, ?_, ?_, ?_⟩ <;>
        dsimp only [SSt.setPc]
      · exact iff_of_false (by simp) (by omega)
      · omega
      · exact hcv
      · rw [eC]; exact hccn
      · rw [eT, eI]; exact hinvk
      · rw [eI]; exact hciff
      · rw [eI]; exact h1C
      · omega
      · rw [eM] at *
        omega
      · rw [eB]; exact hnbr
      · intro pc' hpc'
        rcases List.mem_or_eq_of_mem_set hpc' with hold | rfl
        · exact hres pc' hold
        · have hold := hres s.callers[i] (List.getElem_mem hi)
          rw [hpci] at hold
          cases src <;> simp [CPC.resultOK] at hold ⊢ <;> exact hold
      · rw [eH]; exact hlhc
    | done r src =>
      exact ⟨hlk, h1L, hcv, hccn, hinvk, hciff, h1C, hacq, hrel, hnbr,
        hres, hlhc⟩

theorem SInv.run (fval : PyVal) (hfval : fval ≠ PyVal.none) :
    ∀ (sched : List Nat) (s : SSt), SInv fval s →
      SInv fval (runSched fval s sched)
  | [], _, hinv => hinv
  | i :: rest, s, hinv =>
      SInv.run fval hfval rest (stepCaller fval s i)
        (SInv.step fval hfval s i hinv)

theorem stepCaller_length (fval : PyVal) (s : SSt) (i : Nat) :
    (stepCaller fval s i).callers.length = s.callers.length := by
  unfold stepCaller
  cases hget : s.callers[i]? with
  | none => rfl
  | some pc =>
      cases pc <;> dsimp only <;>
        first
        | (split <;> simp [SSt.setPc])
        | simp [SSt.setPc]

theorem runSched_length (fval : PyVal) :
    ∀ (sched : List Nat) (s : SSt),
      (runSched fval s sched).callers.length = s.callers.length
  | [], _ => rfl
  | i :: rest, s => by
      rw [runSched, runSched_length fval rest, stepCaller_length]

/-- C1 amended: N concurrent callers that all miss the same key, lease ≥
critical-section duration (the lock never expires while held), and a
computed value that is not `None`: on any completed interleaving the
wrapped function is invoked exactly once, the blocking lock acquisition
succeeds exactly N times (once per caller), the lock is released exactly
N times, exactly one caller computed, and every caller ends with the
freshly stored value — the non-computing ones having observed it at the
double-checked lookup after acquiring the lock. -/
theorem stampede_exactly_once
    (fval : PyVal) (hfval : fval ≠ PyVal.none) (n : Nat) (hn : 0 < n)
    (sched : List Nat)
    (hdone : ∀ pc ∈ (runSched fval (initSt n) sched).callers,
      pc.isDone = true)
    (hmissed : ∀ pc ∈ (runSched fval (initSt n) sched).callers,
      pc.isDoneMissed = true) :
    (runSched fval (initSt n) sched).invoked = 1 ∧
    (runSched fval (initSt n) sched).acquired = n ∧
    (runSched fval (initSt n) sched).released = n ∧
    (runSched fval (initSt n) sched).callers.countP
      CPC.isComputedIsh = 1 ∧
    ∀ pc ∈ (runSched fval (initSt n) sched).callers,
      pc = .done fval .lockHit ∨ pc = .done fval .computed := by
  have hinv : SInv fval (runSched fval (initSt n) sched) :=
    SInv.run fval hfval sched (initSt n) (SInv.init fval n)
  obtain ⟨hlk, h1L, hcv, hccn, hinvk, hciff, h1C, hacq, hrel, hnbr, hres,
    hlhc⟩ := hinv
  set s := runSched fval (initSt n) sched with hs
  have hlen : s.callers.length = n := by
    rw [hs, runSched_length]
    exact List.length_replicate n CPC.start
  -- no caller is still in the lock or computing
  have hL0 : s.callers.countP CPC.inLock = 0 := by
    rw [List.countP_eq_zero]
    intro pc hpc
    have := hdone pc hpc
    cases pc <;> simp_all [CPC.isDone, CPC.inLock]
  have hT0 : s.callers.countP CPC.isToStore = 0 := by
    rw [List.countP_eq_zero]
    intro pc hpc
    have := hdone pc hpc
    cases pc <;> simp_all [CPC.isDone, CPC.isToStore]
  have hM : s.callers.countP CPC.isDoneMissed = n := by
    rw [← hlen]
    exact List.countP_eq_length.mpr hmissed
  -- the cache ends populated: otherwise nobody computed, yet every
  -- caller finished through the lock, so some caller saw a populated
  -- cache inside the lock — contradiction
  have hcache : s.cache ≠ PyVal.none := by
    by_contra hnone
    have hnone' : s.cache = PyVal.none := hnone
    have hCI0 : s.callers.countP CPC.isComputedIsh = 0 := by
      by_contra hne
      exact (hciff.mpr (Nat.pos_of_ne_zero hne)) hnone'
    have hLH : 0 < s.callers.countP CPC.isLockHitIsh := by
      rcases List.exists_mem_of_length_pos (hlen ▸ hn) with ⟨pc, hpc⟩
      have hdm := hmissed pc hpc
      have hnotCI : CPC.isComputedIsh pc = false := by
        have := List.countP_eq_zero.mp hCI0 pc hpc
        simpa using this
      refine List.countP_pos_iff.mpr ⟨pc, hpc, ?_⟩
      cases pc with
      | done r src =>
          cases src with
          | initialHit => simp [CPC.isDoneMissed] at hdm
          | lockHit => rfl
          | computed => simp [CPC.isComputedIsh] at hnotCI
      | start => simp [CPC.isDoneMissed] at hdm
      | toAcquire => simp [CPC.isDoneMissed] at hdm
      | locked => simp [CPC.isDoneMissed] at hdm
      | toCompute => simp [CPC.isDoneMissed] at hdm
      | toStore => simp [CPC.isDoneMissed] at hdm
      | toRelease r src => simp [CPC.isDoneMissed] at hdm
    exact (hlhc hLH) hnone'
  have hCIpos : 0 < s.callers.countP CPC.isComputedIsh := hciff.mp hcache
  have hCI1 : s.callers.countP CPC.isComputedIsh = 1 := by omega
  refine ⟨by omega, by omega, by omega, hCI1, ?_⟩
  intro pc hpc
  have hdm := hmissed pc hpc
  have hr := hres pc hpc
  cases pc with
  | done r src =>
      cases src with
      | initialHit => simp [CPC.isDoneMissed] at hdm
      | lockHit =>
          left
          have : r = fval := by simpa [CPC.resultOK] using hr
          rw [this]
      | computed =>
          right
          have : r = fval := by simpa [CPC.resultOK] using hr
          rw [this]
  | start => simp [CPC.isDoneMissed] at hdm
  | toAcquire => simp [CPC.isDoneMissed] at hdm
  | locked => simp [CPC.isDoneMissed] at hdm
  | toCompute => simp [CPC.isDoneMissed] at hdm
  | toStore => simp [CPC.isDoneMissed] at hdm
  | toRelease r src => simp [CPC.isDoneMissed] at hdm

/-- Witness for C1's amended theorem: two callers, value `7`, a
schedule on which caller 0 computes and caller 1 hits inside the lock. -/
theorem stampede_exactly_once_witness :
    (runSched (.int 7) (initSt 2) [0, 1, 0, 0, 0, 0, 0, 1, 1, 1]).invoked
      = 1 ∧
    (runSched (.int 7) (initSt 2) [0, 1, 0, 0, 0, 0, 0, 1, 1, 1]).acquired
      = 2 ∧
    (runSched (.int 7) (initSt 2) [0, 1, 0, 0, 0, 0, 0, 1, 1, 1]).released
      = 2 ∧
    (runSched (.int 7) (initSt 2)
      [0, 1, 0, 0, 0, 0, 0, 1, 1, 1]).callers.countP
      CPC.isComputedIsh = 1 ∧
    ∀ pc ∈ (runSched (.int 7) (initSt 2)
        [0, 1, 0, 0, 0, 0, 0, 1, 1, 1]).callers,
      pc = .done (.int 7) .lockHit ∨ pc = .done (.int 7) .computed :=
  stampede_exactly_once (.int 7) (by decide) 2 (by decide)
    [0, 1, 0, 0, 0, 0, 0, 1, 1, 1] (by decide) (by decide)
